import Mathlib

/-!
Verification of the `tarko-agent-ui-python` repository core: asset
acquisition (registry version resolution + tar extraction into a static
directory) and HTML environment injection (splicing a configuration
script block after the `<head>` tag).

Strings are embedded as `List Char` (Python `str` is a sequence of code
points).  The filesystem state relevant to the code is embedded as
`Option (List Str)`: `none` means the static directory does not exist,
`some files` means it exists and holds exactly the listed relative
paths.  Network and archive access are embedded as an explicit `Net`
record of (possibly failing) responses, and Python exceptions as the
`PyErr` sum of the exception classes the code can raise.
-/

abbrev Str := List Char

/-! ## JSON values and Python `json.dumps`

`ui_config` is an arbitrary JSON-serializable value.  `JValue` embeds
the JSON data model (numbers restricted to integers — the claims and
the repository's tests only exercise integers; floats are outside the
shallow embedding).  `jdump` embeds Python's `json.dumps` with its
default separators `", "` and `": "`: it escapes `"`, `\`, the control
characters (shorthand escapes for `\n`, `\r`, `\t`, `\b`, `\f`, and
`\u00xx` for the rest below 0x20) and leaves every other character —
including `<` and `>` — literal.  (Python's default `ensure_ascii`
additionally escapes characters above 0x7f; those are kept literal
here, which is irrelevant to the claims, which concern ASCII
characters.) -/

inductive JValue where
  | null : JValue
  | bool : Bool → JValue
  | num : Int → JValue
  | str : Str → JValue
  | arr : List JValue → JValue
  | obj : List (Str × JValue) → JValue

/-- Digit character for a hex digit (lowercase, as Python emits). -/
def hexDigitChar (n : Nat) : Char :=
  Char.ofNat (if n < 10 then 48 + n else 87 + n)

/-- Escaping of one character inside a JSON string literal, following
Python `json.dumps` (`json.encoder.ESCAPE_DCT`). -/
def escChar (c : Char) : List Char :=
  if c = '"' then ['\\', '"']
  else if c = '\\' then ['\\', '\\']
  else if c = '\n' then ['\\', 'n']
  else if c = '\r' then ['\\', 'r']
  else if c = '\t' then ['\\', 't']
  else if c.toNat = 8 then ['\\', 'b']
  else if c.toNat = 12 then ['\\', 'f']
  else if c.toNat < 32 then
    ['\\', 'u', '0', '0', hexDigitChar (c.toNat / 16), hexDigitChar (c.toNat % 16)]
  else [c]

def escString : Str → Str
  | [] => []
  | c :: rest => escChar c ++ escString rest

/-- Decimal rendering of a natural number (Python `repr` of a non-negative int). -/
def natToChars (n : Nat) : Str :=
  if n = 0 then ['0']
  else ((Nat.digits 10 n).reverse).map (fun d => Char.ofNat (48 + d))

/-- Decimal rendering of an integer (Python `repr` of an int). -/
def intToChars (i : Int) : Str :=
  if i < 0 then '-' :: natToChars i.natAbs else natToChars i.toNat

mutual
/-- Embedding of Python `json.dumps` with default arguments (separators
`", "` and `": "`). -/
def jdump : JValue → Str
  | .null => "null".data
  | .bool true => "true".data
  | .bool false => "false".data
  | .num i => intToChars i
  | .str s => '"' :: (escString s ++ ['"'])
  | .arr [] => ['[', ']']
  | .arr (v :: vs) => '[' :: (jdumpItems v vs ++ [']'])
  | .obj [] => ['\x7b', '\x7d']
  | .obj (kv :: kvs) => '\x7b' :: (jdumpMembers kv kvs ++ ['\x7d'])
termination_by v => sizeOf v
decreasing_by all_goals (simp only [List.cons.sizeOf_spec, List.nil.sizeOf_spec, JValue.arr.sizeOf_spec,
  JValue.obj.sizeOf_spec, Prod.mk.sizeOf_spec]; omega)

/-- Comma-separated rendering of a non-empty array body. -/
def jdumpItems : JValue → List JValue → Str
  | v, [] => jdump v
  | v, w :: ws => jdump v ++ ',' :: ' ' :: jdumpItems w ws
termination_by v vs => sizeOf v + sizeOf vs
decreasing_by all_goals (simp only [List.cons.sizeOf_spec, List.nil.sizeOf_spec, JValue.arr.sizeOf_spec,
  JValue.obj.sizeOf_spec, Prod.mk.sizeOf_spec]; omega)

/-- Comma-separated rendering of a non-empty object body. -/
def jdumpMembers : (Str × JValue) → List (Str × JValue) → Str
  | (k, v), [] => '"' :: (escString k ++ '"' :: ':' :: ' ' :: jdump v)
  | (k, v), kv :: ws =>
      ('"' :: (escString k ++ '"' :: ':' :: ' ' :: jdump v)) ++ ',' :: ' ' :: jdumpMembers kv ws
termination_by kv kvs => sizeOf kv + sizeOf kvs
decreasing_by all_goals (simp only [List.cons.sizeOf_spec, List.nil.sizeOf_spec, JValue.arr.sizeOf_spec,
  JValue.obj.sizeOf_spec, Prod.mk.sizeOf_spec]; omega)
end

mutual
/-- Structural size of a JSON value, used as parser fuel bound. -/
def jsize : JValue → Nat
  | .null => 1
  | .bool _ => 1
  | .num _ => 1
  | .str _ => 1
  | .arr [] => 1
  | .arr (v :: vs) => 1 + jsizeItems v vs
  | .obj [] => 1
  | .obj (kv :: kvs) => 1 + jsizeMembers kv kvs
termination_by v => sizeOf v
decreasing_by all_goals (simp only [List.cons.sizeOf_spec, List.nil.sizeOf_spec, JValue.arr.sizeOf_spec,
  JValue.obj.sizeOf_spec, Prod.mk.sizeOf_spec]; omega)

def jsizeItems : JValue → List JValue → Nat
  | v, [] => 1 + jsize v
  | v, w :: ws => 1 + jsize v + jsizeItems w ws
termination_by v vs => sizeOf v + sizeOf vs
decreasing_by all_goals (simp only [List.cons.sizeOf_spec, List.nil.sizeOf_spec, JValue.arr.sizeOf_spec,
  JValue.obj.sizeOf_spec, Prod.mk.sizeOf_spec]; omega)

def jsizeMembers : (Str × JValue) → List (Str × JValue) → Nat
  | (_, v), [] => 1 + jsize v
  | (_, v), kv :: ws => 1 + jsize v + jsizeMembers kv ws
termination_by kv kvs => sizeOf kv + sizeOf kvs
decreasing_by all_goals (simp only [List.cons.sizeOf_spec, List.nil.sizeOf_spec, JValue.arr.sizeOf_spec,
  JValue.obj.sizeOf_spec, Prod.mk.sizeOf_spec]; omega)
end

/-! ## A JSON parser

A recursive-descent parser for the canonical format emitted by `jdump`:
this is the parser through which claim C4's round-trip property is
stated.  `parseJ` is fuel-indexed; `jparse` supplies sufficient fuel. -/

def isDigitCh (c : Char) : Bool := 48 ≤ c.toNat && c.toNat ≤ 57

/-- `true` when the stream does not begin with a decimal digit (so a
number parsed just before it cannot extend into it). -/
def ndStart : Str → Bool
  | [] => true
  | c :: _ => !isDigitCh c

def hexVal (c : Char) : Option Nat :=
  if 48 ≤ c.toNat ∧ c.toNat ≤ 57 then some (c.toNat - 48)
  else if 97 ≤ c.toNat ∧ c.toNat ≤ 102 then some (c.toNat - 87)
  else if 65 ≤ c.toNat ∧ c.toNat ≤ 70 then some (c.toNat - 55)
  else none

/-- Consume a leading run of decimal digits, accumulating their value. -/
def parseDigitsAux : Nat → Str → Nat × Str
  | acc, [] => (acc, [])
  | acc, c :: rest =>
    if isDigitCh c then parseDigitsAux (acc * 10 + (c.toNat - 48)) rest
    else (acc, c :: rest)

/-- Parse the body of a JSON string literal (after the opening quote),
decoding escape sequences, up to and including the closing quote. -/
def parseStringBody : Str → Option (Str × Str)
  | [] => none
  | c :: rest =>
    if c = '"' then some ([], rest)
    else if c = '\\' then
      match rest with
      | [] => none
      | e :: rest2 =>
        if e = '"' then (parseStringBody rest2).map (fun p => ('"' :: p.1, p.2))
        else if e = '\\' then (parseStringBody rest2).map (fun p => ('\\' :: p.1, p.2))
        else if e = 'n' then (parseStringBody rest2).map (fun p => ('\n' :: p.1, p.2))
        else if e = 'r' then (parseStringBody rest2).map (fun p => ('\r' :: p.1, p.2))
        else if e = 't' then (parseStringBody rest2).map (fun p => ('\t' :: p.1, p.2))
        else if e = 'b' then (parseStringBody rest2).map (fun p => (Char.ofNat 8 :: p.1, p.2))
        else if e = 'f' then (parseStringBody rest2).map (fun p => (Char.ofNat 12 :: p.1, p.2))
        else if e = 'u' then
          match rest2 with
          | h1 :: h2 :: h3 :: h4 :: rest3 =>
            match hexVal h1, hexVal h2, hexVal h3, hexVal h4 with
            | some a, some b, some c2, some d =>
                (parseStringBody rest3).map
                  (fun p => (Char.ofNat (((a * 16 + b) * 16 + c2) * 16 + d) :: p.1, p.2))
            | _, _, _, _ => none
          | _ => none
        else none
    else (parseStringBody rest).map (fun p => (c :: p.1, p.2))

/-- `expect p cs` consumes the literal prefix `p`. -/
def expectLit (p cs : Str) : Option Str :=
  if p.isPrefixOf cs then some (cs.drop p.length) else none

mutual
/-- Fuel-indexed JSON parser for the canonical `jdump` format. -/
def parseJ : Nat → Str → Option (JValue × Str)
  | 0, _ => none
  | fuel + 1, cs =>
    match cs with
    | [] => none
    | c :: cs' =>
      if c = 'n' then (expectLit ['u', 'l', 'l'] cs').map (fun r => (.null, r))
      else if c = 't' then (expectLit ['r', 'u', 'e'] cs').map (fun r => (.bool true, r))
      else if c = 'f' then (expectLit ['a', 'l', 's', 'e'] cs').map (fun r => (.bool false, r))
      else if c = '"' then (parseStringBody cs').map (fun p => (.str p.1, p.2))
      else if c = '[' then
        match cs' with
        | [] => none
        | d :: r =>
          if d = ']' then some (.arr [], r)
          else (parseArrItems fuel (d :: r)).map (fun p => (.arr p.1, p.2))
      else if c = '\x7b' then
        match cs' with
        | [] => none
        | d :: r =>
          if d = '\x7d' then some (.obj [], r)
          else (parseObjItems fuel (d :: r)).map (fun p => (.obj p.1, p.2))
      else if c = '-' then
        match cs' with
        | [] => none
        | d :: r =>
          if isDigitCh d then
            match parseDigitsAux (d.toNat - 48) r with
            | (n, rest2) => some (.num (-(n : Int)), rest2)
          else none
      else if isDigitCh c then
        match parseDigitsAux (c.toNat - 48) cs' with
        | (n, rest2) => some (.num (n : Int), rest2)
      else none

/-- Parse a non-empty `", "`-separated array body up to and including `]`. -/
def parseArrItems : Nat → Str → Option (List JValue × Str)
  | 0, _ => none
  | fuel + 1, cs =>
    match parseJ fuel cs with
    | none => none
    | some (v, r) =>
      match r with
      | [] => none
      | d :: r2 =>
        if d = ']' then some ([v], r2)
        else if d = ',' then
          match r2 with
          | [] => none
          | e :: r3 =>
            if e = ' ' then (parseArrItems fuel r3).map (fun p => (v :: p.1, p.2))
            else none
        else none

/-- Parse a non-empty `", "`-separated object body up to and including the
closing brace. -/
def parseObjItems : Nat → Str → Option (List (Str × JValue) × Str)
  | 0, _ => none
  | fuel + 1, cs =>
    match cs with
    | [] => none
    | c :: cs' =>
      if c = '"' then
        match parseStringBody cs' with
        | none => none
        | some (k, r1) =>
          match r1 with
          | [] => none
          | d :: r2 =>
            if d = ':' then
              match r2 with
              | [] => none
              | e :: r3 =>
                if e = ' ' then
                  match parseJ fuel r3 with
                  | none => none
                  | some (v, r4) =>
                    match r4 with
                    | [] => none
                    | f :: r5 =>
                      if f = '\x7d' then some ([(k, v)], r5)
                      else if f = ',' then
                        match r5 with
                        | [] => none
                        | g :: r6 =>
                          if g = ' ' then
                            (parseObjItems fuel r6).map (fun p => ((k, v) :: p.1, p.2))
                          else none
                      else none
                else none
            else none
      else none
end

/-- JSON parser over a whole stream: supplies fuel and requires the
stream to be consumed entirely. -/
def jparse (cs : Str) : Option JValue :=
  match parseJ (cs.length + 1) cs with
  | some (v, []) => some v
  | _ => none

/-! ## Round-trip lemmas: strings and numbers -/

theorem hexVal_hexDigitChar : ∀ n, n < 16 → hexVal (hexDigitChar n) = some n := by decide

theorem digitCharFacts : ∀ d, d < 10 →
    (isDigitCh (Char.ofNat (48 + d)) = true ∧ (Char.ofNat (48 + d)).toNat = 48 + d ∧
     Char.ofNat (48 + d) ≠ ']' ∧ Char.ofNat (48 + d) ≠ 'n' ∧ Char.ofNat (48 + d) ≠ 't' ∧
     Char.ofNat (48 + d) ≠ 'f' ∧ Char.ofNat (48 + d) ≠ '"' ∧ Char.ofNat (48 + d) ≠ '[' ∧
     Char.ofNat (48 + d) ≠ '\x7b' ∧ Char.ofNat (48 + d) ≠ '-') := by decide

theorem isPrefixOf_append_self : ∀ (p rest : Str), p.isPrefixOf (p ++ rest) = true := by
  intro p
  induction p with
  | nil => intro rest; cases rest <;> rfl
  | cons c p ih => intro rest; simp [List.isPrefixOf, ih]

theorem expectLit_append (p rest : Str) : expectLit p (p ++ rest) = some rest := by
  simp [expectLit, isPrefixOf_append_self, List.drop_left]

theorem parseStringBody_esc (s : Str) :
    ∀ rest, parseStringBody (escString s ++ '"' :: rest) = some (s, rest) := by
  induction s with
  | nil =>
    intro rest
    simp only [escString, List.nil_append]
    rw [parseStringBody.eq_def]; simp
  | cons c s ih =>
    intro rest
    by_cases h1 : c = '"'
    · subst h1; simp only [escString, escChar, if_true, List.cons_append, List.append_assoc,
        ite_true, List.nil_append]
      rw [parseStringBody.eq_def]; simp [ih]
    by_cases h2 : c = '\\'
    · subst h2
      simp only [escString, escChar]
      norm_num
      rw [parseStringBody.eq_def]; simp [ih]
    by_cases h3 : c = '\n'
    · subst h3
      simp only [escString, escChar]
      norm_num
      rw [parseStringBody.eq_def]; simp [ih]
    by_cases h4 : c = '\r'
    · subst h4
      simp only [escString, escChar]
      norm_num
      rw [parseStringBody.eq_def]; simp [ih]
    by_cases h5 : c = '\t'
    · subst h5
      simp only [escString, escChar]
      norm_num
      rw [parseStringBody.eq_def]; simp [ih]
    by_cases h6 : c.toNat = 8
    · have hc : Char.ofNat 8 = c := by rw [← h6, Char.ofNat_toNat]
      simp only [escString, escChar, h1, h2, h3, h4, h5, h6, if_false, ite_false, ite_true,
        if_true, List.cons_append, List.append_assoc, List.nil_append]
      rw [parseStringBody.eq_def]; simp [ih]
      exact hc
    by_cases h7 : c.toNat = 12
    · have hc : Char.ofNat 12 = c := by rw [← h7, Char.ofNat_toNat]
      simp only [escString, escChar, h1, h2, h3, h4, h5, h6, h7, if_false, ite_false,
        ite_true, if_true, List.cons_append, List.append_assoc, List.nil_append]
      rw [parseStringBody.eq_def]; simp [ih]
      exact hc
    by_cases h8 : c.toNat < 32
    · have hdiv : c.toNat / 16 < 16 := by omega
      have hmod : c.toNat % 16 < 16 := by omega
      have hc : Char.ofNat c.toNat = c := Char.ofNat_toNat c
      simp only [escString, escChar, h1, h2, h3, h4, h5, h6, h7, h8, if_false, ite_false,
        ite_true, if_true, List.cons_append, List.append_assoc, List.nil_append]
      rw [parseStringBody.eq_def]
      simp only [hexVal_hexDigitChar _ hdiv, hexVal_hexDigitChar _ hmod]
      simp [ih, hexVal]
      rw [show c.toNat / 16 * 16 + c.toNat % 16 = c.toNat from by omega, hc]
    · simp only [escString, escChar, h1, h2, h3, h4, h5, h6, h7, h8, if_false, ite_false,
        List.cons_append, List.append_assoc, List.nil_append]
      rw [parseStringBody.eq_def]; simp [h1, h2, ih]

theorem parseDigitsAux_run :
    ∀ (ds : List Nat) (acc : Nat) (rest : Str), (∀ d ∈ ds, d < 10) → ndStart rest = true →
      parseDigitsAux acc ((ds.map (fun d => Char.ofNat (48 + d))) ++ rest) =
        (ds.foldl (fun a d => a * 10 + d) acc, rest) := by
  intro ds
  induction ds with
  | nil =>
    intro acc rest _ hnd
    cases rest with
    | nil => rfl
    | cons c r =>
      have : isDigitCh c = false := by
        revert hnd; simp [ndStart]
      simp [parseDigitsAux, this]
  | cons d ds ih =>
    intro acc rest hds hnd
    have hd : d < 10 := hds d (by simp)
    obtain ⟨hdig, htn, -⟩ := digitCharFacts d hd
    have : parseDigitsAux acc ((Char.ofNat (48 + d) :: ds.map (fun d => Char.ofNat (48 + d))) ++ rest)
        = parseDigitsAux (acc * 10 + d) ((ds.map (fun d => Char.ofNat (48 + d))) ++ rest) := by
      simp [parseDigitsAux, hdig, htn]
    rw [List.map_cons, this, ih (acc * 10 + d) rest (fun x hx => hds x (by simp [hx])) hnd]
    simp

theorem foldr_ofDigits : ∀ l : List Nat, l.foldr (fun d a => a * 10 + d) 0 = Nat.ofDigits 10 l := by
  intro l
  induction l with
  | nil => simp [Nat.ofDigits_nil]
  | cons d l ih => simp [Nat.ofDigits_cons, ih]; omega

theorem foldl_reverse_digits (n : Nat) :
    ((Nat.digits 10 n).reverse).foldl (fun a d => a * 10 + d) 0 = n := by
  rw [List.foldl_reverse]
  have := foldr_ofDigits (Nat.digits 10 n)
  simpa [this] using Nat.ofDigits_digits 10 n

/-! ## Size positivity and head-shape lemmas -/

theorem jsize_pos (v : JValue) : 1 ≤ jsize v := by
  cases v with
  | null => simp [jsize]
  | bool b => simp [jsize]
  | num i => simp [jsize]
  | str s => simp [jsize]
  | arr xs => cases xs <;> simp [jsize]
  | obj xs => cases xs <;> simp [jsize]

theorem jsizeItems_ge (v : JValue) (vs : List JValue) : 1 + jsize v ≤ jsizeItems v vs := by
  cases vs <;> simp [jsizeItems]

theorem jsizeMembers_ge (k : Str) (v : JValue) (kvs : List (Str × JValue)) :
    1 + jsize v ≤ jsizeMembers (k, v) kvs := by
  cases kvs <;> simp [jsizeMembers]

theorem jdump_head (v : JValue) : ∃ c t, jdump v = c :: t ∧ c ≠ ']' := by
  cases v with
  | null => exact ⟨'n', ['u', 'l', 'l'], by rw [jdump], by decide⟩
  | bool b =>
    cases b with
    | true => exact ⟨'t', ['r', 'u', 'e'], by rw [jdump], by decide⟩
    | false => exact ⟨'f', ['a', 'l', 's', 'e'], by rw [jdump], by decide⟩
  | str s => exact ⟨'"', escString s ++ ['"'], by rw [jdump], by decide⟩
  | arr xs =>
    cases xs with
    | nil => exact ⟨'[', [']'], by rw [jdump], by decide⟩
    | cons v vs => exact ⟨'[', jdumpItems v vs ++ [']'], by rw [jdump], by decide⟩
  | obj xs =>
    cases xs with
    | nil => exact ⟨'\x7b', ['\x7d'], by rw [jdump], by decide⟩
    | cons kv kvs => exact ⟨'\x7b', jdumpMembers kv kvs ++ ['\x7d'], by rw [jdump], by decide⟩
  | num i =>
    by_cases hi : i < 0
    · refine ⟨'-', natToChars i.natAbs, ?_, by decide⟩
      rw [jdump, intToChars, if_pos hi]
    · by_cases h0 : i.toNat = 0
      · refine ⟨'0', [], ?_, by decide⟩
        rw [jdump, intToChars, if_neg hi, natToChars, if_pos h0]
      · have hne : Nat.digits 10 i.toNat ≠ [] := Nat.digits_ne_nil_iff_ne_zero.mpr h0
        have hne' : (Nat.digits 10 i.toNat).reverse ≠ [] := by simpa using hne
        obtain ⟨d0, ds, hds⟩ := List.exists_cons_of_ne_nil hne'
        have hmem : d0 ∈ Nat.digits 10 i.toNat := by
          have h : d0 ∈ (Nat.digits 10 i.toNat).reverse := by rw [hds]; simp
          exact List.mem_reverse.mp h
        have hd0 : d0 < 10 := Nat.digits_lt_base (by norm_num) hmem
        obtain ⟨-, -, h3, -⟩ := digitCharFacts d0 hd0
        refine ⟨Char.ofNat (48 + d0), ds.map (fun d => Char.ofNat (48 + d)), ?_, h3⟩
        rw [jdump, intToChars, if_neg hi, natToChars, if_neg h0, hds]
        simp

theorem jdumpItems_head (v : JValue) (vs : List JValue) :
    ∃ c t, jdumpItems v vs = c :: t ∧ c ≠ ']' := by
  obtain ⟨c, t, h, hne⟩ := jdump_head v
  cases vs with
  | nil => refine ⟨c, t, ?_, hne⟩; rw [jdumpItems]; exact h
  | cons w ws =>
    refine ⟨c, t ++ ',' :: ' ' :: jdumpItems w ws, ?_, hne⟩
    rw [jdumpItems, h]; simp

theorem jdumpMembers_head (kv : Str × JValue) (kvs : List (Str × JValue)) :
    ∃ t, jdumpMembers kv kvs = '"' :: t := by
  obtain ⟨k, v⟩ := kv
  cases kvs with
  | nil => exact ⟨escString k ++ '"' :: ':' :: ' ' :: jdump v, by rw [jdumpMembers]⟩
  | cons kv2 kvs2 =>
    refine ⟨(escString k ++ '"' :: ':' :: ' ' :: jdump v) ++ ',' :: ' ' :: jdumpMembers kv2 kvs2, ?_⟩
    rw [jdumpMembers]; simp

/-! ## The round trip `parseJ (jdump v ++ rest) = some (v, rest)` -/

theorem parseJ_jdump_main : ∀ n : Nat,
    (∀ v fuel rest, jsize v ≤ n → jsize v ≤ fuel → ndStart rest = true →
       parseJ fuel (jdump v ++ rest) = some (v, rest)) ∧
    (∀ v vs fuel rest, jsizeItems v vs ≤ n → jsizeItems v vs ≤ fuel →
       parseArrItems fuel (jdumpItems v vs ++ ']' :: rest) = some (v :: vs, rest)) ∧
    (∀ kv kvs fuel rest, jsizeMembers kv kvs ≤ n → jsizeMembers kv kvs ≤ fuel →
       parseObjItems fuel (jdumpMembers kv kvs ++ '\x7d' :: rest) = some (kv :: kvs, rest)) := by
  intro n
  induction n with
  | zero =>
    refine ⟨fun v fuel rest hn _ _ => absurd hn (by have := jsize_pos v; omega),
            fun v vs fuel rest hn _ =>
              absurd hn (by have := jsizeItems_ge v vs; have := jsize_pos v; omega),
            fun kv kvs fuel rest hn _ => ?_⟩
    obtain ⟨k, v⟩ := kv
    exact absurd hn (by have := jsizeMembers_ge k v kvs; have := jsize_pos v; omega)
  | succ n ih =>
    obtain ⟨ihV, ihA, ihO⟩ := ih
    refine ⟨?_, ?_, ?_⟩
    · -- values
      intro v fuel rest hn hf hnd
      cases fuel with
      | zero => exact absurd hf (by have := jsize_pos v; omega)
      | succ f =>
        cases v with
        | null =>
          rw [show jdump JValue.null = ['n', 'u', 'l', 'l'] from by rw [jdump]]
          rw [parseJ.eq_def]
          simp [expectLit, List.isPrefixOf]
        | bool b =>
          cases b with
          | true =>
            rw [show jdump (JValue.bool true) = ['t', 'r', 'u', 'e'] from by rw [jdump]]
            rw [parseJ.eq_def]
            simp [expectLit, List.isPrefixOf]
          | false =>
            rw [show jdump (JValue.bool false) = ['f', 'a', 'l', 's', 'e'] from by rw [jdump]]
            rw [parseJ.eq_def]
            simp [expectLit, List.isPrefixOf]
        | str s =>
          rw [show jdump (JValue.str s) ++ rest = '"' :: (escString s ++ '"' :: rest) from by
            rw [jdump]; simp]
          rw [parseJ.eq_def]
          simp [parseStringBody_esc]
        | arr xs =>
          cases xs with
          | nil =>
            rw [show jdump (JValue.arr []) = ['[', ']'] from by rw [jdump]]
            rw [parseJ.eq_def]
            simp
          | cons v vs =>
            obtain ⟨c0, t0, hct, hcne⟩ := jdumpItems_head v vs
            have hsz : jsize (JValue.arr (v :: vs)) = 1 + jsizeItems v vs := by rw [jsize]
            rw [hsz] at hn hf
            have harr : jdump (JValue.arr (v :: vs)) ++ rest
                = '[' :: (c0 :: (t0 ++ ']' :: rest)) := by
              rw [jdump, hct]; simp
            rw [harr, parseJ.eq_def]
            have hx : parseArrItems f (c0 :: (t0 ++ ']' :: rest)) = some (v :: vs, rest) := by
              rw [show (c0 :: (t0 ++ ']' :: rest) : Str) = jdumpItems v vs ++ ']' :: rest from by
                rw [hct]; simp]
              exact ihA v vs f rest (by omega) (by omega)
            simp [hcne, hx]
        | obj xs =>
          cases xs with
          | nil =>
            rw [show jdump (JValue.obj []) = ['\x7b', '\x7d'] from by rw [jdump]]
            rw [parseJ.eq_def]
            simp
          | cons kv kvs =>
            obtain ⟨t0, hct⟩ := jdumpMembers_head kv kvs
            have hsz : jsize (JValue.obj (kv :: kvs)) = 1 + jsizeMembers kv kvs := by rw [jsize]
            rw [hsz] at hn hf
            have hobj : jdump (JValue.obj (kv :: kvs)) ++ rest
                = '\x7b' :: ('"' :: (t0 ++ '\x7d' :: rest)) := by
              rw [jdump, hct]; simp
            rw [hobj, parseJ.eq_def]
            have hx : parseObjItems f ('"' :: (t0 ++ '\x7d' :: rest)) = some (kv :: kvs, rest) := by
              rw [show ('"' :: (t0 ++ '\x7d' :: rest) : Str) = jdumpMembers kv kvs ++ '\x7d' :: rest from by
                rw [hct]; simp]
              exact ihO kv kvs f rest (by omega) (by omega)
            simp [hx]
        | num i =>
          by_cases hi : i < 0
          · have hnz : i.natAbs ≠ 0 := by omega
            have hne' : (Nat.digits 10 i.natAbs).reverse ≠ [] := by
              simpa using Nat.digits_ne_nil_iff_ne_zero.mpr hnz
            obtain ⟨d0, ds, hds⟩ := List.exists_cons_of_ne_nil hne'
            have hall : ∀ d ∈ (Nat.digits 10 i.natAbs).reverse, d < 10 := fun d hd =>
              Nat.digits_lt_base (by norm_num) (List.mem_reverse.mp hd)
            have hd0 : d0 < 10 := hall d0 (by rw [hds]; simp)
            obtain ⟨hdig, htn, hq1, hq2, hq3, hq4, hq5, hq6, hq7, hq8⟩ := digitCharFacts d0 hd0
            have hstream : jdump (JValue.num i) ++ rest
                = '-' :: (Char.ofNat (48 + d0) :: ((ds.map fun d => Char.ofNat (48 + d)) ++ rest)) := by
              rw [jdump, intToChars, if_pos hi, natToChars, if_neg hnz, hds]; simp
            rw [hstream, parseJ.eq_def]
            have hrun : parseDigitsAux ((Char.ofNat (48 + d0)).toNat - 48)
                  ((ds.map fun d => Char.ofNat (48 + d)) ++ rest)
                = (ds.foldl (fun a d => a * 10 + d) d0, rest) := by
              rw [htn]
              have h := parseDigitsAux_run ds d0 rest
                (fun d hd => hall d (by rw [hds]; simp [hd])) hnd
              simpa using h
            have hval : ds.foldl (fun a d => a * 10 + d) d0 = i.natAbs := by
              have h2 := foldl_reverse_digits i.natAbs
              rw [hds] at h2
              simpa using h2
            simp [hdig, hrun]
            rw [hval]
            omega
          · by_cases h0 : i.toNat = 0
            · have hieq : i = 0 := by omega
              subst hieq
              have hstream : jdump (JValue.num 0) ++ rest = '0' :: rest := by
                rw [jdump, intToChars, if_neg hi]
                simp [natToChars]
              rw [hstream, parseJ.eq_def]
              have hrun : parseDigitsAux 0 rest = (0, rest) := by
                have h := parseDigitsAux_run [] 0 rest (by simp) hnd
                simpa using h
              simp [hrun, isDigitCh]
            · have hne' : (Nat.digits 10 i.toNat).reverse ≠ [] := by
                simpa using Nat.digits_ne_nil_iff_ne_zero.mpr h0
              obtain ⟨d0, ds, hds⟩ := List.exists_cons_of_ne_nil hne'
              have hall : ∀ d ∈ (Nat.digits 10 i.toNat).reverse, d < 10 := fun d hd =>
                Nat.digits_lt_base (by norm_num) (List.mem_reverse.mp hd)
              have hd0 : d0 < 10 := hall d0 (by rw [hds]; simp)
              obtain ⟨hdig, htn, hq1, hq2, hq3, hq4, hq5, hq6, hq7, hq8⟩ := digitCharFacts d0 hd0
              have hstream : jdump (JValue.num i) ++ rest
                  = Char.ofNat (48 + d0) :: ((ds.map fun d => Char.ofNat (48 + d)) ++ rest) := by
                rw [jdump, intToChars, if_neg hi, natToChars, if_neg h0, hds]; simp
              rw [hstream, parseJ.eq_def]
              have hrun : parseDigitsAux ((Char.ofNat (48 + d0)).toNat - 48)
                    ((ds.map fun d => Char.ofNat (48 + d)) ++ rest)
                  = (ds.foldl (fun a d => a * 10 + d) d0, rest) := by
                rw [htn]
                have h := parseDigitsAux_run ds d0 rest
                  (fun d hd => hall d (by rw [hds]; simp [hd])) hnd
                simpa using h
              have hval : ds.foldl (fun a d => a * 10 + d) d0 = i.toNat := by
                have h2 := foldl_reverse_digits i.toNat
                rw [hds] at h2
                simpa using h2
              simp [hq2, hq3, hq4, hq5, hq6, hq7, hq8, hdig, hrun]
              rw [hval]
              omega
    · -- array items
      intro v vs fuel rest hn hf
      have hvp := jsize_pos v
      cases fuel with
      | zero => exact absurd hf (by have := jsizeItems_ge v vs; omega)
      | succ f =>
        cases vs with
        | nil =>
          have hsz : jsizeItems v [] = 1 + jsize v := by rw [jsizeItems]
          rw [hsz] at hn hf
          rw [show jdumpItems v [] = jdump v from by rw [jdumpItems]]
          rw [parseArrItems.eq_def]
          have hv := ihV v f (']' :: rest) (by omega) (by omega) (by simp only [ndStart]; decide)
          simp [hv]
        | cons w ws =>
          have hsz : jsizeItems v (w :: ws) = 1 + jsize v + jsizeItems w ws := by rw [jsizeItems]
          rw [hsz] at hn hf
          have hwp : 1 ≤ jsizeItems w ws := by
            have := jsizeItems_ge w ws; have := jsize_pos w; omega
          have hstream : jdumpItems v (w :: ws) ++ ']' :: rest
              = jdump v ++ ',' :: ' ' :: (jdumpItems w ws ++ ']' :: rest) := by
            rw [jdumpItems]; simp
          rw [hstream, parseArrItems.eq_def]
          have hv := ihV v f (',' :: ' ' :: (jdumpItems w ws ++ ']' :: rest))
            (by omega) (by omega) (by simp only [ndStart]; decide)
          have hw := ihA w ws f rest (by omega) (by omega)
          simp [hv, hw]
    · -- object members
      intro kv kvs fuel rest hn hf
      obtain ⟨k, v⟩ := kv
      have hvp := jsize_pos v
      cases fuel with
      | zero => exact absurd hf (by have := jsizeMembers_ge k v kvs; omega)
      | succ f =>
        cases kvs with
        | nil =>
          have hsz : jsizeMembers (k, v) [] = 1 + jsize v := by rw [jsizeMembers]
          rw [hsz] at hn hf
          have hstream : jdumpMembers (k, v) [] ++ '\x7d' :: rest
              = '"' :: (escString k ++ '"' :: (':' :: ' ' :: (jdump v ++ '\x7d' :: rest))) := by
            rw [jdumpMembers]; simp
          rw [hstream, parseObjItems.eq_def]
          have hk := parseStringBody_esc k (':' :: ' ' :: (jdump v ++ '\x7d' :: rest))
          have hv := ihV v f ('\x7d' :: rest) (by omega) (by omega) (by simp only [ndStart]; decide)
          simp [hk, hv]
        | cons kv2 kvs2 =>
          have hsz : jsizeMembers (k, v) (kv2 :: kvs2) = 1 + jsize v + jsizeMembers kv2 kvs2 := by
            rw [jsizeMembers]
          rw [hsz] at hn hf
          have hwp : 1 ≤ jsizeMembers kv2 kvs2 := by
            obtain ⟨k2, v2⟩ := kv2
            have := jsizeMembers_ge k2 v2 kvs2; have := jsize_pos v2; omega
          have hstream : jdumpMembers (k, v) (kv2 :: kvs2) ++ '\x7d' :: rest
              = '"' :: (escString k ++ '"' :: (':' :: ' ' ::
                  (jdump v ++ ',' :: ' ' :: (jdumpMembers kv2 kvs2 ++ '\x7d' :: rest)))) := by
            rw [jdumpMembers]; simp
          rw [hstream, parseObjItems.eq_def]
          have hk := parseStringBody_esc k
            (':' :: ' ' :: (jdump v ++ ',' :: ' ' :: (jdumpMembers kv2 kvs2 ++ '\x7d' :: rest)))
          have hv := ihV v f (',' :: ' ' :: (jdumpMembers kv2 kvs2 ++ '\x7d' :: rest))
            (by omega) (by omega) (by simp only [ndStart]; decide)
          have hm := ihO kv2 kvs2 f rest (by omega) (by omega)
          simp [hk, hv, hm]

/-! ## Fuel bound: the serialized length dominates the size -/

theorem jsize_le_len : ∀ n : Nat,
    (∀ v, jsize v ≤ n → jsize v ≤ (jdump v).length + 1) ∧
    (∀ v vs, jsizeItems v vs ≤ n → jsizeItems v vs ≤ (jdumpItems v vs).length + 2) ∧
    (∀ kv kvs, jsizeMembers kv kvs ≤ n → jsizeMembers kv kvs ≤ (jdumpMembers kv kvs).length + 2) := by
  intro n
  induction n with
  | zero =>
    refine ⟨fun v h => absurd h (by have := jsize_pos v; omega),
            fun v vs h =>
              absurd h (by have := jsizeItems_ge v vs; have := jsize_pos v; omega),
            fun kv kvs h => ?_⟩
    obtain ⟨k, v⟩ := kv
    exact absurd h (by have := jsizeMembers_ge k v kvs; have := jsize_pos v; omega)
  | succ n ih =>
    obtain ⟨ihV, ihA, ihO⟩ := ih
    refine ⟨?_, ?_, ?_⟩
    · intro v hn
      cases v with
      | null =>
        have h1 : jsize JValue.null = 1 := by rw [jsize]
        rw [h1]; omega
      | bool b =>
        cases b with
        | true =>
          have h1 : jsize (JValue.bool true) = 1 := by rw [jsize]
          rw [h1]; omega
        | false =>
          have h1 : jsize (JValue.bool false) = 1 := by rw [jsize]
          rw [h1]; omega
      | num i =>
        have h1 : jsize (JValue.num i) = 1 := by rw [jsize]
        rw [h1]; omega
      | str s =>
        have h1 : jsize (JValue.str s) = 1 := by rw [jsize]
        rw [h1]; omega
      | arr xs =>
        cases xs with
        | nil =>
          have h1 : jsize (JValue.arr []) = 1 := by rw [jsize]
          rw [h1]; omega
        | cons v vs =>
          have h1 : jsize (JValue.arr (v :: vs)) = 1 + jsizeItems v vs := by rw [jsize]
          rw [h1] at hn ⊢
          rw [jdump]
          have h2 := ihA v vs (by omega)
          simp only [List.length_cons, List.length_append]
          omega
      | obj xs =>
        cases xs with
        | nil =>
          have h1 : jsize (JValue.obj []) = 1 := by rw [jsize]
          rw [h1]; omega
        | cons kv kvs =>
          have h1 : jsize (JValue.obj (kv :: kvs)) = 1 + jsizeMembers kv kvs := by rw [jsize]
          rw [h1] at hn ⊢
          rw [jdump]
          have h2 := ihO kv kvs (by omega)
          simp only [List.length_cons, List.length_append]
          omega
    · intro v vs hn
      cases vs with
      | nil =>
        have h1 : jsizeItems v [] = 1 + jsize v := by rw [jsizeItems]
        rw [h1] at hn ⊢
        rw [show jdumpItems v [] = jdump v from by rw [jdumpItems]]
        have h2 := ihV v (by omega)
        omega
      | cons w ws =>
        have h1 : jsizeItems v (w :: ws) = 1 + jsize v + jsizeItems w ws := by rw [jsizeItems]
        rw [h1] at hn ⊢
        rw [jdumpItems]
        have h2 := ihV v (by have := jsizeItems_ge w ws; have := jsize_pos w; omega)
        have h3 := ihA w ws (by have := jsize_pos v; omega)
        simp only [List.length_cons, List.length_append]
        omega
    · intro kv kvs hn
      obtain ⟨k, v⟩ := kv
      cases kvs with
      | nil =>
        have h1 : jsizeMembers (k, v) [] = 1 + jsize v := by rw [jsizeMembers]
        rw [h1] at hn ⊢
        rw [jdumpMembers]
        have h2 := ihV v (by omega)
        simp only [List.length_cons, List.length_append]
        omega
      | cons kv2 kvs2 =>
        have h1 : jsizeMembers (k, v) (kv2 :: kvs2) = 1 + jsize v + jsizeMembers kv2 kvs2 := by
          rw [jsizeMembers]
        rw [h1] at hn ⊢
        rw [jdumpMembers]
        have h2 := ihV v (by
          obtain ⟨k2, v2⟩ := kv2
          have := jsizeMembers_ge k2 v2 kvs2; have := jsize_pos v2; omega)
        have h3 := ihO kv2 kvs2 (by have := jsize_pos v; omega)
        simp only [List.length_cons, List.length_append]
        omega

theorem jsize_le_len_final (v : JValue) : jsize v ≤ (jdump v).length + 1 :=
  (jsize_le_len (jsize v)).1 v le_rfl

/-- The canonical `json.dumps` output parses back to the original value. -/
theorem jparse_jdump (v : JValue) : jparse (jdump v) = some v := by
  have h := (parseJ_jdump_main (jsize v)).1 v ((jdump v).length + 1) [] le_rfl
    (jsize_le_len_final v) rfl
  rw [show jdump v ++ ([] : Str) = jdump v from by simp] at h
  unfold jparse
  rw [h]

/-! ## Python exceptions -/

/-- The Python exception classes the embedded code can raise, with the
exception message (`str(e)`). -/
inductive PyErr where
  | fileNotFound (msg : Str)
  | valueError (msg : Str)
  | urlError (msg : Str)
  | tarError (msg : Str)
  | keyError (msg : Str)
deriving DecidableEq

def PyErr.msg : PyErr → Str
  | .fileNotFound m => m
  | .valueError m => m
  | .urlError m => m
  | .tarError m => m
  | .keyError m => m

/-! ## HTML `<head>` search and environment injection

`inject_env_variables` itself is not under src/ — only its tests
(`tests/test_core.py`) and callers are.  It is modelled from the spec
(§4.4): search `html` case-insensitively for the regex `<head[^>]*>`
(a literal `<head`, then any characters up to the first closing `>`),
fail with `ValueError` when there is no match, and otherwise splice the
generated script block immediately after the matched tag's `>`. -/

/-- Case-insensitive test for the literal `<head` at the start of the
stream (the anchor of the pattern `<head[^>]*>` under `re.IGNORECASE`). -/
def headPrefixCI (cs : Str) : Bool :=
  (cs.take 5).map Char.toLower == ['<', 'h', 'e', 'a', 'd']

/-- Split at the first `>`: the matched part up to and including `>`
(the regex's `[^>]*>`), and the remainder. -/
def splitAtGt : Str → Option (Str × Str)
  | [] => none
  | c :: rest =>
    if c = '>' then some ([c], rest)
    else (splitAtGt rest).map (fun p => (c :: p.1, p.2))

def hasGt : Str → Bool
  | [] => false
  | c :: rest => c = '>' || hasGt rest

/-- Decidable presence of an insertion point: some position starts
(case-insensitively) with `<head` and a later `>` closes the tag, i.e.
the regex `<head[^>]*>` has a match in the stream. -/
def hasHeadTag : Str → Bool
  | [] => false
  | c :: rest => (headPrefixCI (c :: rest) && hasGt ((c :: rest).drop 5)) || hasHeadTag rest

/-- Leftmost `<head[^>]*>` match, as the split
`(prefix, matched tag, suffix)` of the input. -/
def searchHeadSplit : Str → Option (Str × Str × Str)
  | [] => none
  | c :: rest =>
    if headPrefixCI (c :: rest) then
      match splitAtGt ((c :: rest).drop 5) with
      | some (t, after) => some ([], (c :: rest).take 5 ++ t, after)
      | none =>
        match searchHeadSplit rest with
        | some (pre, tag, after) => some (c :: pre, tag, after)
        | none => none
    else
      match searchHeadSplit rest with
      | some (pre, tag, after) => some (c :: pre, tag, after)
      | none => none

/-- Modelled from the spec: the script block built by
`inject_env_variables` (§4.4 steps 3–4).  It assigns
`window.AGENT_BASE_URL` (the base URL as a JSON string literal) and
`window.AGENT_WEB_UI_CONFIG` (the `json.dumps`-serialized config) and
includes a `console.log` diagnostic trace. -/
def scriptBlock (baseUrl : Str) (cfg : JValue) : Str :=
  '\n' :: ("<script>".data ++ '\n' ::
  ("window.AGENT_BASE_URL = ".data ++ jdump (.str baseUrl) ++ ';' :: '\n' ::
  ("window.AGENT_WEB_UI_CONFIG = ".data ++ jdump cfg ++ ';' :: '\n' ::
  ("console.log(".data ++ jdump (.str "Agent UI environment variables injected".data) ++
    ");".data ++ '\n' ::
  ("</script>".data ++ ['\n'])))))

/-- Modelled from the spec: `inject_env_variables(html, base_url,
ui_config)` (§4.4) — the function is missing from src/; the search
pattern, error class and error message are pinned by
`tests/test_core.py`.  An absent `ui_config` serializes as `{}`. -/
def inject_env_variables (html baseUrl : Str) (uiConfig : Option JValue) : Except PyErr Str :=
  match searchHeadSplit html with
  | none => .error (.valueError "HTML content must contain a valid <head> section".data)
  | some (pre, tag, after) =>
      .ok (pre ++ tag ++ scriptBlock baseUrl (uiConfig.getD (.obj [])) ++ after)

/-! ### Correctness of the head search -/

theorem splitAtGt_append : ∀ cs t a, splitAtGt cs = some (t, a) → cs = t ++ a := by
  intro cs
  induction cs with
  | nil => intro t a h; exact absurd h (by simp [splitAtGt])
  | cons c rest ih =>
    intro t a h
    rw [splitAtGt] at h
    by_cases hc : c = '>'
    · rw [if_pos hc] at h
      injection h with h1
      injection h1 with h2 h3
      subst h2; subst h3
      rfl
    · rw [if_neg hc] at h
      cases hrec : splitAtGt rest with
      | none => rw [hrec] at h; exact absurd h (by simp)
      | some p =>
        obtain ⟨t', a'⟩ := p
        rw [hrec] at h
        injection h with h1
        injection h1 with h2 h3
        subst h2; subst h3
        simp [ih t' a' hrec]

theorem splitAtGt_endsGt : ∀ cs t a, splitAtGt cs = some (t, a) → ∃ t0, t = t0 ++ ['>'] := by
  intro cs
  induction cs with
  | nil => intro t a h; exact absurd h (by simp [splitAtGt])
  | cons c rest ih =>
    intro t a h
    rw [splitAtGt] at h
    by_cases hc : c = '>'
    · rw [if_pos hc] at h
      injection h with h1
      injection h1 with h2 h3
      subst h2
      exact ⟨[], by simp [hc]⟩
    · rw [if_neg hc] at h
      cases hrec : splitAtGt rest with
      | none => rw [hrec] at h; exact absurd h (by simp)
      | some p =>
        obtain ⟨t', a'⟩ := p
        rw [hrec] at h
        injection h with h1
        injection h1 with h2 h3
        subst h2
        obtain ⟨t0, ht0⟩ := ih t' a' hrec
        exact ⟨c :: t0, by simp [ht0]⟩

theorem splitAtGt_isSome : ∀ cs, (splitAtGt cs).isSome = hasGt cs := by
  intro cs
  induction cs with
  | nil => rfl
  | cons c rest ih =>
    rw [splitAtGt, hasGt]
    by_cases hc : c = '>'
    · rw [if_pos hc]; simp [hc]
    · rw [if_neg hc]
      have hc' : (c = '>') = False := by simp [hc]
      simp only [hc', decide_False, Bool.false_or]
      rw [← ih]
      cases splitAtGt rest <;> rfl

theorem headPrefixCI_take_append (cs t : Str) (h : headPrefixCI cs = true) :
    headPrefixCI (cs.take 5 ++ t) = true := by
  have h' : (cs.take 5).map Char.toLower = ['<', 'h', 'e', 'a', 'd'] := eq_of_beq h
  have hlen : (cs.take 5).length = 5 := by
    have := congrArg List.length h'; simpa using this
  unfold headPrefixCI
  rw [List.take_append_of_le_length (by omega), List.take_of_length_le (by omega)]
  simp [h']

theorem searchHeadSplit_decomp : ∀ cs pre tag after,
    searchHeadSplit cs = some (pre, tag, after) →
    cs = pre ++ tag ++ after ∧ headPrefixCI tag = true ∧ ∃ t0, tag = t0 ++ ['>'] := by
  intro cs
  induction cs with
  | nil => intro pre tag after h; exact absurd h (by simp [searchHeadSplit])
  | cons c rest ih =>
    intro pre tag after h
    rw [searchHeadSplit] at h
    by_cases hp : headPrefixCI (c :: rest) = true
    · rw [if_pos hp] at h
      cases hsp : splitAtGt ((c :: rest).drop 5) with
      | some p =>
        obtain ⟨t, aft⟩ := p
        rw [hsp] at h
        injection h with h1
        injection h1 with h2 h3
        injection h3 with h4 h5
        subst h2; subst h4; subst h5
        have hdec := splitAtGt_append _ _ _ hsp
        refine ⟨?_, headPrefixCI_take_append _ _ hp, ?_⟩
        · have htd := List.take_append_drop 5 (c :: rest)
          conv_lhs => rw [← htd]
          rw [hdec]
          simp
        · obtain ⟨t0, ht0⟩ := splitAtGt_endsGt _ _ _ hsp
          exact ⟨(c :: rest).take 5 ++ t0, by simp [ht0]⟩
      | none =>
        rw [hsp] at h
        cases hrec : searchHeadSplit rest with
        | some q =>
          obtain ⟨pre', tag', after'⟩ := q
          rw [hrec] at h
          injection h with h1
          injection h1 with h2 h3
          injection h3 with h4 h5
          subst h2; subst h4; subst h5
          obtain ⟨hd, hh, he⟩ := ih pre' tag' after' hrec
          exact ⟨by simp [hd], hh, he⟩
        | none => rw [hrec] at h; exact absurd h (by simp)
    · rw [if_neg hp] at h
      cases hrec : searchHeadSplit rest with
      | some q =>
        obtain ⟨pre', tag', after'⟩ := q
        rw [hrec] at h
        injection h with h1
        injection h1 with h2 h3
        injection h3 with h4 h5
        subst h2; subst h4; subst h5
        obtain ⟨hd, hh, he⟩ := ih pre' tag' after' hrec
        exact ⟨by simp [hd], hh, he⟩
      | none => rw [hrec] at h; exact absurd h (by simp)

theorem searchHeadSplit_isSome : ∀ cs, (searchHeadSplit cs).isSome = hasHeadTag cs := by
  intro cs
  induction cs with
  | nil => rfl
  | cons c rest ih =>
    rw [searchHeadSplit, hasHeadTag]
    by_cases hp : headPrefixCI (c :: rest) = true
    · rw [if_pos hp, hp]
      cases hsp : splitAtGt ((c :: rest).drop 5) with
      | some p =>
        obtain ⟨t, aft⟩ := p
        have hgt : hasGt ((c :: rest).drop 5) = true := by
          rw [← splitAtGt_isSome, hsp]; rfl
        rw [hgt]
        rfl
      | none =>
        have hgt : hasGt ((c :: rest).drop 5) = false := by
          rw [← splitAtGt_isSome, hsp]; rfl
        rw [hgt]
        rw [show (true && false || hasHeadTag rest) = hasHeadTag rest by simp]
        rw [← ih]
        cases searchHeadSplit rest with
        | some q => obtain ⟨pre', tag', after'⟩ := q; rfl
        | none => rfl
    · have hp' : headPrefixCI (c :: rest) = false := by
        revert hp; cases headPrefixCI (c :: rest) <;> simp
      rw [if_neg hp, hp']
      rw [show (false && hasGt ((c :: rest).drop 5) || hasHeadTag rest) = hasHeadTag rest by simp]
      rw [← ih]
      cases searchHeadSplit rest with
      | some q => obtain ⟨pre', tag', after'⟩ := q; rfl
      | none => rfl

/-! ## Infix helpers -/

theorem infix_mid (a p b : Str) : List.IsInfix p (a ++ p ++ b) := ⟨a, b, rfl⟩

theorem infix_app_left {p x : Str} (h : List.IsInfix p x) (y : Str) :
    List.IsInfix p (x ++ y) := by
  obtain ⟨s, t, hst⟩ := h
  exact ⟨s, t ++ y, by rw [← hst]; simp⟩

theorem infix_app_right {p x : Str} (h : List.IsInfix p x) (y : Str) :
    List.IsInfix p (y ++ x) := by
  obtain ⟨s, t, hst⟩ := h
  exact ⟨y ++ s, t, by rw [← hst]; simp⟩

/-! ## Shared acquisition model

The registry response is embedded as the finite maps the code reads
(`dist-tags` and `versions.<v>.dist.tarball`, flattened to version ↦
tarball URL, in insertion order); the network as an explicit record of
the two (possibly failing) fetches; the static directory as
`Option (List Str)` (`none` = absent). -/

structure RegistryInfo where
  distTags : List (Str × Str)
  versions : List (Str × Str)

def lookupStr : List (Str × Str) → Str → Option Str
  | [], _ => none
  | (k, v) :: rest, key => if k = key then some v else lookupStr rest key

structure Net where
  meta : Except PyErr RegistryInfo
  tarball : Str → Except PyErr (List Str)

/-- Observable side-effect events of an acquisition run, in program order. -/
inductive Ev where
  | fetchMeta
  | cleanDir
  | fetchTarball
  | extracted
deriving DecidableEq

/-- `startswith` + prefix stripping: `some r` exactly when the prefix
matches, `r` being the remainder. -/
def stripPrefixChars : Str → Str → Option Str
  | [], s => some s
  | _ :: _, [] => none
  | a :: ps, b :: ss => if a = b then stripPrefixChars ps ss else none

/-- The fixed archive prefix `"package/static/"` both variants match on. -/
def staticPrefix : Str := "package/static/".data

def joinSep (sep : Str) : List Str → Str
  | [] => []
  | [x] => x
  | x :: xs => x ++ sep ++ joinSep sep xs

/-- Python `'` character, kept out of string literals. -/
def pyQuote : Char := Char.ofNat 39

/-- Python `str` of a list of strings: `['a', 'b']`. -/
def pyStrList (xs : List Str) : Str :=
  '[' :: (joinSep ", ".data (xs.map (fun s => pyQuote :: (s ++ [pyQuote]))) ++ [']'])

structure DlOutV where
  result : Except PyErr Str
  dir : Option (List Str)
  trace : List Ev

structure DlOut where
  result : Except PyErr Unit
  dir : Option (List Str)
  trace : List Ev

namespace TarkoWebUi

/-- Extraction loop of src/tarko_web_ui/__init__.py lines 100–110: for
each member whose name starts with `"package/static/"`, drop those 15
characters and, when the remainder is non-empty, extract it into the
static directory. -/
def webExtractLoop : List Str → List Str → List Str
  | [], dir => dir
  | m :: rest, dir =>
    match stripPrefixChars staticPrefix m with
    | some rel => if rel = [] then webExtractLoop rest dir else webExtractLoop rest (dir ++ [rel])
    | none => webExtractLoop rest dir

/-- Version resolution of lines 69–72: the explicit argument, else the
registry's `dist-tags.latest` (a missing tag is a `KeyError`). -/
def resolveTarget (info : RegistryInfo) (version : Option Str) : Except PyErr Str :=
  match version with
  | some v => .ok v
  | none =>
    match lookupStr info.distTags "latest".data with
    | some v => .ok v
    | none => .error (.keyError "latest".data)

/-- Message of lines 76–78: `f"Version {v} not found. Available versions:
{available_versions}"` with Python's list rendering. -/
def notFoundMsg (target : Str) (versionKeys : List Str) : Str :=
  "Version ".data ++ target ++ " not found. Available versions: ".data ++ pyStrList versionKeys

/-- Embedding of `download_static_assets` (src/tarko_web_ui/__init__.py
lines 48–116), threading the static-directory state and recording the
effect trace.  `result` carries the resolved version on success (the
Python function returns `None`; `download_static_assets` below discards
it — the same pipeline is the spec-modelled `download_npm_package`).
Program order: metadata fetch, version resolution, version lookup
(failures so far leave the directory untouched), then `rmtree`+`mkdir`
(lines 88–91), then tarball download and extraction. -/
def acquire (net : Net) (version : Option Str) (dir0 : Option (List Str)) : DlOutV :=
  match net.meta with
  | .error e => ⟨.error e, dir0, []⟩
  | .ok info =>
    match resolveTarget info version with
    | .error e => ⟨.error e, dir0, [Ev.fetchMeta]⟩
    | .ok target =>
      match lookupStr info.versions target with
      | none =>
        ⟨.error (.valueError (notFoundMsg target (info.versions.map Prod.fst))), dir0,
          [Ev.fetchMeta]⟩
      | some tarballUrl =>
        match net.tarball tarballUrl with
        | .error e => ⟨.error e, some [], [Ev.fetchMeta, Ev.cleanDir, Ev.fetchTarball]⟩
        | .ok members =>
          ⟨.ok target, some (webExtractLoop members []),
            [Ev.fetchMeta, Ev.cleanDir, Ev.fetchTarball, Ev.extracted]⟩

/-- `tarko_web_ui.download_static_assets`: the pipeline above with the
resolved version discarded (the Python function returns `None`). -/
def download_static_assets (net : Net) (version : Option Str) (dir0 : Option (List Str)) :
    DlOut :=
  let o := acquire net version dir0
  ⟨o.result.map (fun _ => ()), o.dir, o.trace⟩

/-- Modelled from the spec: `download_npm_package` of
`scripts/build_assets.py` is not under src/ (only its tests,
`tests/test_build_assets.py`, are).  Per spec §4.1 it is the same
registry-resolution + download + extraction pipeline as
`download_static_assets` but returns the resolved concrete version
string. -/
def download_npm_package (net : Net) (version : Option Str) (dir0 : Option (List Str)) :
    DlOutV :=
  acquire net version dir0

/-- Line 34: `not static_dir.exists() or not (static_dir /
"index.html").exists()`. -/
def needsDownload (dir0 : Option (List Str)) : Bool :=
  match dir0 with
  | none => true
  | some files => !(files.contains "index.html".data)

/-- Message of lines 40–43 (the manual-retry instruction). -/
def autoFailMsg (e : PyErr) : Str :=
  "Failed to download static assets: ".data ++ e.msg ++
  ". You can try manually: python -c ".data ++
  pyQuote :: ("from tarko_web_ui import download_static_assets; download_static_assets()".data
    ++ [pyQuote])

/-- Embedding of `tarko_web_ui.get_static_path` (lines 20–45): the
auto-provisioning variant.  When the directory or its `index.html` is
missing it attempts `download_static_assets()`, catches every exception
`e` and re-raises `FileNotFoundError(f"Failed to download static
assets: {e}. ...")`; otherwise (and after a successful download) it
returns the absolute path `staticDir`. -/
def get_static_path (net : Net) (dir0 : Option (List Str)) (staticDir : Str) :
    Except PyErr Str × Option (List Str) :=
  if needsDownload dir0 then
    let o := acquire net none dir0
    match o.result with
    | .error e => (.error (.fileNotFound (autoFailMsg e)), o.dir)
    | .ok _ => (.ok staticDir, o.dir)
  else (.ok staticDir, dir0)

end TarkoWebUi

namespace AgentSandbox

/-- Extraction loop of src/python/agent_sandbox/__init__.py lines 75–83:
members are matched on `"package/static/"` but only `"package/"` (8
characters) is stripped; the empty remainder and the bare `"static/"`
entry are skipped. -/
def sandboxExtractLoop : List Str → List Str → List Str
  | [], dir => dir
  | m :: rest, dir =>
    match stripPrefixChars staticPrefix m with
    | some _ =>
      if m.drop 8 = [] then sandboxExtractLoop rest dir
      else if m.drop 8 = "static/".data then sandboxExtractLoop rest dir
      else sandboxExtractLoop rest (dir ++ [m.drop 8])
    | none => sandboxExtractLoop rest dir

/-- Embedding of `agent_sandbox.download_static_assets` (lines 34–89):
always resolves `dist-tags.latest` (no version parameter), then the
same clean + download + extract order as the tarko_web_ui variant. -/
def download_static_assets (net : Net) (dir0 : Option (List Str)) : DlOut :=
  match net.meta with
  | .error e => ⟨.error e, dir0, []⟩
  | .ok info =>
    match lookupStr info.distTags "latest".data with
    | none => ⟨.error (.keyError "latest".data), dir0, [Ev.fetchMeta]⟩
    | some latest =>
      match lookupStr info.versions latest with
      | none => ⟨.error (.keyError latest), dir0, [Ev.fetchMeta]⟩
      | some tarballUrl =>
        match net.tarball tarballUrl with
        | .error e => ⟨.error e, some [], [Ev.fetchMeta, Ev.cleanDir, Ev.fetchTarball]⟩
        | .ok members =>
          ⟨.ok (), some (sandboxExtractLoop members []),
            [Ev.fetchMeta, Ev.cleanDir, Ev.fetchTarball, Ev.extracted]⟩

/-- Embedding of `agent_sandbox.get_static_path` (lines 13–31): checks
only that the static directory exists — it does not check for
`index.html`. -/
def get_static_path (staticDir : Str) (dir0 : Option (List Str)) : Except PyErr Str :=
  match dir0 with
  | none =>
    .error (.fileNotFound ("Static assets not found at ".data ++ staticDir ++
      ". Please run: python -c ".data ++
      pyQuote :: ("from agent_sandbox import download_static_assets; download_static_assets()".data
        ++ [pyQuote])))
  | some _ => .ok staticDir

end AgentSandbox

namespace TarkoAgentUi

def buildAssetsInstr : Str := "Please run: python scripts/build_assets.py".data

/-- Message of src/tarko_agent_ui/__init__.py lines 33–37. -/
def msgStaticMissing (staticDir : Str) : Str :=
  "Static assets not found at ".data ++ staticDir ++
  ". This package may not have been built properly. ".data ++ buildAssetsInstr

/-- Message of lines 42–46. -/
def msgIndexMissing (staticDir : Str) : Str :=
  "index.html not found in ".data ++ staticDir ++
  ". Static assets may be incomplete. ".data ++ buildAssetsInstr

/-- Embedding of `tarko_agent_ui.get_static_path` (lines 20–48): the
fail-fast variant.  `staticDir` abstracts the absolute path of the
package's `static` directory; the function reads the filesystem state
and returns the path or raises — it performs no mutation (its state is
input-only). -/
def get_static_path (staticDir : Str) (dir0 : Option (List Str)) : Except PyErr Str :=
  match dir0 with
  | none => .error (.fileNotFound (msgStaticMissing staticDir))
  | some files =>
    if files.contains "index.html".data then .ok staticDir
    else .error (.fileNotFound (msgIndexMissing staticDir))

structure VersionInfo where
  version : Str
  package : Str
  sdk_version : Str
deriving DecidableEq

/-- `__version__` of src/tarko_agent_ui/__init__.py line 16. -/
def localSdkVersion : Str := "0.3.0b11".data

def fixedPackageName : Str := "@tarko/agent-ui-builder".data

/-- Embedding of the `_static_version` import with its `ImportError`
fallback (lines 8–13): `artifact` holds the generated module's two
constants when the file exists. -/
def staticVersionConstants (artifact : Option (Str × Str)) : Str × Str :=
  match artifact with
  | some vp => vp
  | none => ("unknown".data, fixedPackageName)

/-- Embedding of `get_static_version` (lines 51–61). -/
def get_static_version (artifact : Option (Str × Str)) : VersionInfo :=
  ⟨(staticVersionConstants artifact).1, (staticVersionConstants artifact).2, localSdkVersion⟩

end TarkoAgentUi

/-! ## Spec-side selection predicates (for claim C2) -/

/-- The file set claim C2 (and spec §4.1 step 7) predicts: entries whose
path starts with the fixed prefix `"package/static/"`, with that
matched prefix stripped, empty post-strip paths skipped, in order. -/
def specSelectedEntries (members : List Str) : List Str :=
  members.filterMap (fun m =>
    match stripPrefixChars staticPrefix m with
    | some r => if r = [] then none else some r
    | none => none)

/-- The selection the agent_sandbox variant performs: matched on
`"package/static/"` but only `"package/"` stripped; `""` and
`"static/"` skipped. -/
def sandboxSelectedEntries (members : List Str) : List Str :=
  members.filterMap (fun m =>
    match stripPrefixChars staticPrefix m with
    | some _ =>
      if m.drop 8 = [] then none
      else if m.drop 8 = "static/".data then none
      else some (m.drop 8)
    | none => none)

theorem webExtractLoop_eq : ∀ (members : List Str) (dir : List Str),
    TarkoWebUi.webExtractLoop members dir = dir ++ specSelectedEntries members := by
  intro members
  induction members with
  | nil => intro dir; simp [TarkoWebUi.webExtractLoop, specSelectedEntries]
  | cons m rest ih =>
    intro dir
    rw [TarkoWebUi.webExtractLoop, specSelectedEntries]
    cases hm : stripPrefixChars staticPrefix m with
    | none => simp [hm, ih, specSelectedEntries]
    | some r =>
      by_cases hr : r = []
      · simp [hm, hr, ih, specSelectedEntries]
      · simp [hm, hr, ih, specSelectedEntries]

theorem sandboxExtractLoop_eq : ∀ (members : List Str) (dir : List Str),
    AgentSandbox.sandboxExtractLoop members dir = dir ++ sandboxSelectedEntries members := by
  intro members
  induction members with
  | nil => intro dir; simp [AgentSandbox.sandboxExtractLoop, sandboxSelectedEntries]
  | cons m rest ih =>
    intro dir
    rw [AgentSandbox.sandboxExtractLoop]
    cases hm : stripPrefixChars staticPrefix m with
    | none =>
      rw [ih]
      simp only [sandboxSelectedEntries, List.filterMap_cons, hm]
    | some r =>
      by_cases h8 : m.drop 8 = []
      · rw [if_pos h8, ih]
        simp only [sandboxSelectedEntries, List.filterMap_cons, hm, if_pos h8]
      · by_cases hs : m.drop 8 = "static/".data
        · rw [if_neg h8, if_pos hs, ih]
          simp only [sandboxSelectedEntries, List.filterMap_cons, hm, if_neg h8, if_pos hs]
        · rw [if_neg h8, if_neg hs, ih]
          simp only [sandboxSelectedEntries, List.filterMap_cons, hm, if_neg h8, if_neg hs]
          simp

/-! ## Claim theorems -/

/-- C1: for every HTML string containing an opening `<head...>` tag (any
case, with or without attributes), every base URL and every
JSON-serializable config, `inject_env_variables` returns the original
HTML with the generated script block — which assigns
`window.AGENT_BASE_URL` and `window.AGENT_WEB_UI_CONFIG` — spliced in
immediately after the matched head tag's closing `>`; the prefix and
suffix around the insertion point are byte-for-byte the original input,
so removing the injected block yields exactly the original. -/
theorem c1_inject_splices_after_head (html baseUrl : Str) (cfg : Option JValue)
    (h : hasHeadTag html = true) :
    ∃ pre tag after,
      searchHeadSplit html = some (pre, tag, after) ∧
      pre ++ tag ++ after = html ∧
      headPrefixCI tag = true ∧
      (∃ t0, tag = t0 ++ ['>']) ∧
      inject_env_variables html baseUrl cfg =
        .ok (pre ++ tag ++ scriptBlock baseUrl (cfg.getD (.obj [])) ++ after) ∧
      List.IsInfix "window.AGENT_BASE_URL = ".data (scriptBlock baseUrl (cfg.getD (.obj []))) ∧
      List.IsInfix "window.AGENT_WEB_UI_CONFIG = ".data (scriptBlock baseUrl (cfg.getD (.obj []))) := by
  have hsome : (searchHeadSplit html).isSome = true := by rw [searchHeadSplit_isSome]; exact h
  obtain ⟨res, hres⟩ := Option.isSome_iff_exists.mp hsome
  obtain ⟨pre, tag, after⟩ := res
  obtain ⟨hd, hh, he⟩ := searchHeadSplit_decomp html pre tag after hres
  refine ⟨pre, tag, after, hres, hd.symm, hh, he, ?_, ?_, ?_⟩
  · simp [inject_env_variables, hres]
  · refine ⟨'\n' :: ("<script>".data ++ ['\n']),
      jdump (.str baseUrl) ++ ';' :: '\n' ::
        ("window.AGENT_WEB_UI_CONFIG = ".data ++ jdump (cfg.getD (.obj [])) ++ ';' :: '\n' ::
        ("console.log(".data ++ jdump (.str "Agent UI environment variables injected".data) ++
          ");".data ++ '\n' :: ("</script>".data ++ ['\n']))), ?_⟩
    rw [scriptBlock]
    simp
  · refine ⟨'\n' :: ("<script>".data ++ '\n' ::
        ("window.AGENT_BASE_URL = ".data ++ jdump (.str baseUrl) ++ [';', '\n'])),
      jdump (cfg.getD (.obj [])) ++ ';' :: '\n' ::
        ("console.log(".data ++ jdump (.str "Agent UI environment variables injected".data) ++
          ");".data ++ '\n' :: ("</script>".data ++ ['\n'])), ?_⟩
    rw [scriptBlock]
    simp

theorem c1_witness :
    ∃ pre tag after,
      searchHeadSplit "<html><head></head><body></body></html>".data = some (pre, tag, after) ∧
      pre ++ tag ++ after = "<html><head></head><body></body></html>".data ∧
      headPrefixCI tag = true ∧
      (∃ t0, tag = t0 ++ ['>']) ∧
      inject_env_variables "<html><head></head><body></body></html>".data
          "http://api.example.com".data none =
        .ok (pre ++ tag ++
          scriptBlock "http://api.example.com".data ((none : Option JValue).getD (.obj [])) ++
          after) ∧
      List.IsInfix "window.AGENT_BASE_URL = ".data
        (scriptBlock "http://api.example.com".data ((none : Option JValue).getD (.obj []))) ∧
      List.IsInfix "window.AGENT_WEB_UI_CONFIG = ".data
        (scriptBlock "http://api.example.com".data ((none : Option JValue).getD (.obj []))) :=
  c1_inject_splices_after_head "<html><head></head><body></body></html>".data
    "http://api.example.com".data none (by decide)

/-- C5: when the case-insensitive search for `<head` followed by any
characters up to a closing `>` finds no match, `inject_env_variables`
raises `ValueError` ("HTML content must contain a valid `<head>`
section") and produces no output; when a match exists — any letter
case, with or without attributes — it succeeds and never raises this
error. -/
theorem c5_missing_head_validation (html baseUrl : Str) (cfg : Option JValue) :
    (hasHeadTag html = false →
      inject_env_variables html baseUrl cfg =
        .error (.valueError "HTML content must contain a valid <head> section".data)) ∧
    (hasHeadTag html = true → ∃ out, inject_env_variables html baseUrl cfg = .ok out) := by
  constructor
  · intro h
    have hnone : searchHeadSplit html = none := by
      have hs := searchHeadSplit_isSome html
      rw [h] at hs
      exact Option.not_isSome_iff_eq_none.mp (by simp [hs])
    simp [inject_env_variables, hnone]
  · intro h
    have hsome : (searchHeadSplit html).isSome = true := by rw [searchHeadSplit_isSome]; exact h
    obtain ⟨res, hres⟩ := Option.isSome_iff_exists.mp hsome
    obtain ⟨pre, tag, after⟩ := res
    exact ⟨pre ++ tag ++ scriptBlock baseUrl (cfg.getD (.obj [])) ++ after,
      by simp [inject_env_variables, hres]⟩

theorem c5_witness :
    inject_env_variables "<html><body></body></html>".data "http://api.example.com".data none =
      .error (.valueError "HTML content must contain a valid <head> section".data) ∧
    (∃ out, inject_env_variables "<html><HEAD lang=\"en\"></HEAD><body></body></html>".data
      "http://api.example.com".data none = .ok out) :=
  ⟨(c5_missing_head_validation "<html><body></body></html>".data
      "http://api.example.com".data none).1 (by decide),
   (c5_missing_head_validation "<html><HEAD lang=\"en\"></HEAD><body></body></html>".data
      "http://api.example.com".data none).2 (by decide)⟩

set_option maxRecDepth 8000 in
/-- C4 (counterexample): on the configuration of
`tests/test_core.py::test_special_characters_in_config`, the
serialization escapes `"`, `\` and the newline, but the angle brackets
inside the string values appear **literally** in the output (`<`
never appears) — refuting the claim that all characters significant to
HTML-embedded-script contexts, "including angle brackets inside
strings", are escaped. -/
theorem c4_counterexample :
    jdump (JValue.obj [("title".data, JValue.str "Agent with \"quotes\" & <tags>".data),
        ("description".data, JValue.str "Line 1\nLine 2".data)]) =
      "\x7b\"title\": \"Agent with \\\"quotes\\\" & <tags>\", \"description\": \"Line 1\\nLine 2\"\x7d".data ∧
    '<' ∈ "\x7b\"title\": \"Agent with \\\"quotes\\\" & <tags>\", \"description\": \"Line 1\\nLine 2\"\x7d".data ∧
    '>' ∈ "\x7b\"title\": \"Agent with \\\"quotes\\\" & <tags>\", \"description\": \"Line 1\\nLine 2\"\x7d".data ∧
    List.IsInfix "\"Agent with \\\"quotes\\\" & <tags>\"".data
      "\x7b\"title\": \"Agent with \\\"quotes\\\" & <tags>\", \"description\": \"Line 1\\nLine 2\"\x7d".data ∧
    ¬ List.IsInfix "\\u003c".data
      "\x7b\"title\": \"Agent with \\\"quotes\\\" & <tags>\", \"description\": \"Line 1\\nLine 2\"\x7d".data := by
  refine ⟨?_, by decide, by decide, by decide, by decide⟩
  simp [jdump, jdumpMembers, escString, escChar]

/-- C4 (amended): the serialization embedded by `inject_env_variables`
escapes the characters significant to JSON (quotes, backslashes,
newlines and other control characters) but leaves angle brackets inside
strings literal; the embedded object literal — which occurs verbatim
inside the generated script block — round-trips through a JSON parser
to a value equal to the original `ui_config`. -/
theorem c4_roundtrip (baseUrl : Str) (cfg : JValue) :
    jparse (jdump cfg) = some cfg ∧
    List.IsInfix (jdump cfg) (scriptBlock baseUrl cfg) := by
  refine ⟨jparse_jdump cfg, ?_⟩
  refine ⟨'\n' :: ("<script>".data ++ '\n' ::
      ("window.AGENT_BASE_URL = ".data ++ jdump (.str baseUrl) ++ ';' :: '\n' ::
        "window.AGENT_WEB_UI_CONFIG = ".data)),
    ';' :: '\n' :: ("console.log(".data ++
      jdump (.str "Agent UI environment variables injected".data) ++ ");".data ++ '\n' ::
      ("</script>".data ++ ['\n'])), ?_⟩
  rw [scriptBlock]
  simp

/-- C6 (counterexample): the `agent_sandbox` variant of
`get_static_path` does not raise when the static directory exists but
lacks `index.html` — it returns the path — contradicting the claim
that the error is raised in exactly the two situations, the second
being a present directory without the entry file. -/
theorem c6_counterexample :
    AgentSandbox.get_static_path "/pkg/agent_sandbox/static".data (some ["app.js".data]) =
      .ok "/pkg/agent_sandbox/static".data :=
  rfl

/-- C6 (amended): the `tarko_agent_ui` `get_static_path` raises
`FileNotFoundError` in exactly two situations — static directory
absent, or present without `index.html` — with messages that instruct
the caller to run `python scripts/build_assets.py`, and otherwise
returns the directory's absolute path (the embedding is state-in only:
nothing is mutated); the `agent_sandbox` variant checks only directory
existence and succeeds even without `index.html`. -/
theorem c6_static_path (staticDir : Str) (dir0 : Option (List Str)) :
    (dir0 = none →
      TarkoAgentUi.get_static_path staticDir dir0 =
        .error (.fileNotFound (TarkoAgentUi.msgStaticMissing staticDir))) ∧
    (∀ files, dir0 = some files → files.contains "index.html".data = false →
      TarkoAgentUi.get_static_path staticDir dir0 =
        .error (.fileNotFound (TarkoAgentUi.msgIndexMissing staticDir))) ∧
    (∀ files, dir0 = some files → files.contains "index.html".data = true →
      TarkoAgentUi.get_static_path staticDir dir0 = .ok staticDir) ∧
    List.IsInfix TarkoAgentUi.buildAssetsInstr (TarkoAgentUi.msgStaticMissing staticDir) ∧
    List.IsInfix TarkoAgentUi.buildAssetsInstr (TarkoAgentUi.msgIndexMissing staticDir) ∧
    (∀ files, dir0 = some files → AgentSandbox.get_static_path staticDir dir0 = .ok staticDir) := by
  refine ⟨?_, ?_, ?_, ?_, ?_, ?_⟩
  · intro h; subst h; rfl
  · intro files h hc; subst h; simp [TarkoAgentUi.get_static_path]; simp at hc; exact hc
  · intro files h hc; subst h; simp [TarkoAgentUi.get_static_path]; simp at hc; exact hc
  · exact ⟨"Static assets not found at ".data ++ staticDir ++
      ". This package may not have been built properly. ".data, [],
      by simp [TarkoAgentUi.msgStaticMissing]⟩
  · exact ⟨"index.html not found in ".data ++ staticDir ++
      ". Static assets may be incomplete. ".data, [],
      by simp [TarkoAgentUi.msgIndexMissing]⟩
  · intro files h; subst h; rfl

theorem c6_witness :
    TarkoAgentUi.get_static_path "/pkg/tarko_agent_ui/static".data none =
      .error (.fileNotFound (TarkoAgentUi.msgStaticMissing "/pkg/tarko_agent_ui/static".data)) ∧
    TarkoAgentUi.get_static_path "/pkg/tarko_agent_ui/static".data (some ["app.js".data]) =
      .error (.fileNotFound (TarkoAgentUi.msgIndexMissing "/pkg/tarko_agent_ui/static".data)) ∧
    TarkoAgentUi.get_static_path "/pkg/tarko_agent_ui/static".data
      (some ["index.html".data, "app.js".data]) = .ok "/pkg/tarko_agent_ui/static".data ∧
    AgentSandbox.get_static_path "/pkg/tarko_agent_ui/static".data (some ["app.js".data]) =
      .ok "/pkg/tarko_agent_ui/static".data :=
  ⟨(c6_static_path "/pkg/tarko_agent_ui/static".data none).1 rfl,
   (c6_static_path "/pkg/tarko_agent_ui/static".data (some ["app.js".data])).2.1
     ["app.js".data] rfl (by decide),
   (c6_static_path "/pkg/tarko_agent_ui/static".data
     (some ["index.html".data, "app.js".data])).2.2.1
     ["index.html".data, "app.js".data] rfl (by decide),
   (c6_static_path "/pkg/tarko_agent_ui/static".data (some ["app.js".data])).2.2.2.2.2
     ["app.js".data] rfl⟩

/-- C8: version reporting is total — it never raises, whether or not
the generated version artifact exists: with the artifact absent it
returns the sentinel `"unknown"` together with the fixed package name
`"@tarko/agent-ui-builder"`, with it present it returns the recorded
pair, and in every case the result is the triple completed by the
statically known local SDK version `"0.3.0b11"`. -/
theorem c8_version_reporting (artifact : Option (Str × Str)) :
    (artifact = none →
      TarkoAgentUi.get_static_version artifact =
        ⟨"unknown".data, TarkoAgentUi.fixedPackageName, TarkoAgentUi.localSdkVersion⟩) ∧
    (∀ v p, artifact = some (v, p) →
      TarkoAgentUi.get_static_version artifact = ⟨v, p, TarkoAgentUi.localSdkVersion⟩) ∧
    (TarkoAgentUi.get_static_version artifact).sdk_version = TarkoAgentUi.localSdkVersion := by
  refine ⟨?_, ?_, ?_⟩
  · intro h; subst h; rfl
  · intro v p h; subst h; rfl
  · cases artifact with
    | none => rfl
    | some vp => rfl

theorem c8_witness :
    TarkoAgentUi.get_static_version none =
      ⟨"unknown".data, TarkoAgentUi.fixedPackageName, TarkoAgentUi.localSdkVersion⟩ ∧
    TarkoAgentUi.get_static_version (some ("1.2.3".data, "@tarko/agent-ui-builder".data)) =
      ⟨"1.2.3".data, "@tarko/agent-ui-builder".data, TarkoAgentUi.localSdkVersion⟩ :=
  ⟨(c8_version_reporting none).1 rfl,
   (c8_version_reporting (some ("1.2.3".data, "@tarko/agent-ui-builder".data))).2.1
     "1.2.3".data "@tarko/agent-ui-builder".data rfl⟩

theorem mem_joinSep (sep : Str) : ∀ (ys : List Str) (a : Str), a ∈ ys →
    List.IsInfix a (joinSep sep ys) := by
  intro ys
  induction ys with
  | nil => intro a ha; exact absurd ha (by simp)
  | cons y ys ih =>
    intro a ha
    cases ys with
    | nil =>
      have : a = y := by simpa using ha
      subst this
      exact ⟨[], [], by simp [joinSep]⟩
    | cons z zs =>
      rcases List.mem_cons.mp ha with h | h
      · subst h
        exact ⟨[], sep ++ joinSep sep (z :: zs),
          by rw [show joinSep sep (a :: z :: zs) = a ++ sep ++ joinSep sep (z :: zs) from rfl]
             simp⟩
      · exact infix_app_right (ih a h) (y ++ sep)

theorem mem_pyStrList (k : Str) (xs : List Str) (hk : k ∈ xs) :
    List.IsInfix k (pyStrList xs) := by
  have h1 : List.IsInfix k (pyQuote :: (k ++ [pyQuote])) := ⟨[pyQuote], [pyQuote], by simp⟩
  have h2 : List.IsInfix (pyQuote :: (k ++ [pyQuote]))
      (joinSep ", ".data (xs.map (fun s => pyQuote :: (s ++ [pyQuote])))) :=
    mem_joinSep _ _ _ (List.mem_map.mpr ⟨k, hk, rfl⟩)
  have h3 := h1.trans h2
  obtain ⟨s, t, hst⟩ := h3
  exact ⟨'[' :: s, t ++ [']'], by rw [pyStrList, ← hst]; simp⟩

theorem lookupStr_mem : ∀ (l : List (Str × Str)) (key u : Str),
    lookupStr l key = some u → ∃ p ∈ l, p.1 = key := by
  intro l
  induction l with
  | nil => intro key u h; exact absurd h (by simp [lookupStr])
  | cons p rest ih =>
    intro key u h
    obtain ⟨k, v⟩ := p
    rw [lookupStr] at h
    by_cases hk : k = key
    · exact ⟨(k, v), by simp, hk⟩
    · rw [if_neg hk] at h
      obtain ⟨q, hq, hqk⟩ := ih key u h
      exact ⟨q, by simp [hq], hqk⟩

/-- C2 (counterexample): the `agent_sandbox` variant selects entries by
the matched prefix `"package/static/"` but strips only `"package/"`:
on an archive containing `package/static/index.html` the resulting
directory holds `static/index.html`, not the claim's
matched-prefix-stripped `index.html`. -/
theorem c2_counterexample :
    (AgentSandbox.download_static_assets
        ⟨.ok ⟨[("latest".data, "1.2.3".data)], [("1.2.3".data, "u".data)]⟩,
         fun _ => .ok ["package/static/index.html".data]⟩ none).dir =
      some ["static/index.html".data] ∧
    specSelectedEntries ["package/static/index.html".data] = ["index.html".data] ∧
    some ["static/index.html".data] ≠
      some (specSelectedEntries ["package/static/index.html".data]) :=
  ⟨rfl, by decide, by decide⟩

/-- C2 (amended): a successful acquisition fully replaces the prior
directory contents — the result is independent of the prior state, with
the directory cleaned before extraction — and the final file set is
exactly the variant's selection from the archive: the `tarko_web_ui`
variant keeps entries under the matched prefix `"package/static/"`
with that whole prefix stripped and empty remainders skipped; the
`agent_sandbox` variant strips only `"package/"`, skipping `""` and
`"static/"`, so its files stay under a `static/` subdirectory. -/
theorem c2_amended_extraction (net : Net) (version : Option Str) (info : RegistryInfo)
    (target turl : Str) (members : List Str) (dir0 dir0' : Option (List Str))
    (hm : net.meta = .ok info) (ht : net.tarball turl = .ok members) :
    (TarkoWebUi.resolveTarget info version = .ok target →
      lookupStr info.versions target = some turl →
      (TarkoWebUi.download_static_assets net version dir0).dir =
        some (specSelectedEntries members) ∧
      (TarkoWebUi.download_static_assets net version dir0).dir =
        (TarkoWebUi.download_static_assets net version dir0').dir ∧
      (TarkoWebUi.download_static_assets net version dir0).result = .ok ()) ∧
    (∀ lv, lookupStr info.distTags "latest".data = some lv →
      lookupStr info.versions lv = some turl →
      (AgentSandbox.download_static_assets net dir0).dir =
        some (sandboxSelectedEntries members) ∧
      (AgentSandbox.download_static_assets net dir0).dir =
        (AgentSandbox.download_static_assets net dir0').dir) := by
  constructor
  · intro hres hlook
    refine ⟨?_, ?_, ?_⟩ <;>
      simp [TarkoWebUi.download_static_assets, TarkoWebUi.acquire, hm, hres, hlook, ht,
        webExtractLoop_eq, Except.map]
  · intro lv hlat hlook
    constructor <;>
      simp [AgentSandbox.download_static_assets, hm, hlat, hlook, ht, sandboxExtractLoop_eq]

theorem c2_witness :
    (TarkoWebUi.download_static_assets
        ⟨.ok ⟨[("latest".data, "1.0.0".data)],
              [("1.0.0".data, "u".data)]⟩,
         fun _ => .ok ["package/static/index.html".data, "package/static/".data,
                       "package/README.md".data]⟩
        (some "1.0.0".data) (some ["leftover.txt".data])).dir =
      some (specSelectedEntries ["package/static/index.html".data, "package/static/".data,
        "package/README.md".data]) ∧
    (TarkoWebUi.download_static_assets
        ⟨.ok ⟨[("latest".data, "1.0.0".data)],
              [("1.0.0".data, "u".data)]⟩,
         fun _ => .ok ["package/static/index.html".data, "package/static/".data,
                       "package/README.md".data]⟩
        (some "1.0.0".data) (some ["leftover.txt".data])).dir =
      (TarkoWebUi.download_static_assets
        ⟨.ok ⟨[("latest".data, "1.0.0".data)],
              [("1.0.0".data, "u".data)]⟩,
         fun _ => .ok ["package/static/index.html".data, "package/static/".data,
                       "package/README.md".data]⟩
        (some "1.0.0".data) none).dir ∧
    (TarkoWebUi.download_static_assets
        ⟨.ok ⟨[("latest".data, "1.0.0".data)],
              [("1.0.0".data, "u".data)]⟩,
         fun _ => .ok ["package/static/index.html".data, "package/static/".data,
                       "package/README.md".data]⟩
        (some "1.0.0".data) (some ["leftover.txt".data])).result = .ok () :=
  (c2_amended_extraction _ (some "1.0.0".data)
    ⟨[("latest".data, "1.0.0".data)], [("1.0.0".data, "u".data)]⟩ "1.0.0".data "u".data
    ["package/static/index.html".data, "package/static/".data, "package/README.md".data]
    (some ["leftover.txt".data]) none rfl rfl).1 rfl rfl

/-- C3: every successful acquisition (the spec contract
`acquire(version, target_dir) -> version`, modelled by
`download_npm_package`) returns the resolved concrete version string:
the version argument when supplied, the registry's `latest` dist-tag
value when absent; the returned string is a key of the registry's
version map, and — as long as the registry publishes no version
literally named "latest" — it is never the literal `"latest"` (and it
is never absent, the success value being the version itself). -/
theorem c3_returns_resolved_version (net : Net) (version : Option Str) (info : RegistryInfo)
    (dir0 : Option (List Str)) (v : Str)
    (hm : net.meta = .ok info)
    (hlat : ∀ p ∈ info.versions, p.1 ≠ "latest".data)
    (hok : (TarkoWebUi.download_npm_package net version dir0).result = .ok v) :
    (∀ u, version = some u → v = u) ∧
    (version = none → lookupStr info.distTags "latest".data = some v) ∧
    lookupStr info.versions v ≠ none ∧
    v ≠ "latest".data := by
  rw [show TarkoWebUi.download_npm_package net version dir0
      = TarkoWebUi.acquire net version dir0 from rfl] at hok
  rw [TarkoWebUi.acquire, hm] at hok
  dsimp only at hok
  cases hres : TarkoWebUi.resolveTarget info version with
  | error e => rw [hres] at hok; simp at hok
  | ok target =>
    rw [hres] at hok
    dsimp only at hok
    cases hlook : lookupStr info.versions target with
    | none => rw [hlook] at hok; simp at hok
    | some turl =>
      rw [hlook] at hok
      dsimp only at hok
      cases htar : net.tarball turl with
      | error e => rw [htar] at hok; simp at hok
      | ok members =>
        rw [htar] at hok
        simp at hok
        subst hok
        refine ⟨?_, ?_, ?_, ?_⟩
        · intro u hu
          subst hu
          rw [TarkoWebUi.resolveTarget] at hres
          exact (by simpa using hres : u = target).symm
        · intro hv
          subst hv
          rw [TarkoWebUi.resolveTarget] at hres
          cases hl : lookupStr info.distTags "latest".data with
          | none => rw [hl] at hres; simp at hres
          | some lv =>
            rw [hl] at hres
            have hlv : lv = target := by simpa using hres
            simp [hl, hlv]
        · simp [hlook]
        · intro hveq
          obtain ⟨p, hp, hpk⟩ := lookupStr_mem _ _ _ hlook
          exact hlat p hp (by rw [hpk, hveq])

theorem c3_witness :
    ((∀ u, (none : Option Str) = some u → "1.2.3".data = u) ∧
     ((none : Option Str) = none →
       lookupStr ([("latest".data, "1.2.3".data)] : List (Str × Str)) "latest".data =
         some "1.2.3".data) ∧
     lookupStr ([("1.2.3".data, "https://registry.npmjs.org/package.tgz".data)] :
       List (Str × Str)) "1.2.3".data ≠ none ∧
     "1.2.3".data ≠ "latest".data) :=
  c3_returns_resolved_version
    ⟨.ok ⟨[("latest".data, "1.2.3".data)],
          [("1.2.3".data, "https://registry.npmjs.org/package.tgz".data)]⟩,
     fun _ => .ok ["package/static/index.html".data]⟩
    none
    ⟨[("latest".data, "1.2.3".data)],
     [("1.2.3".data, "https://registry.npmjs.org/package.tgz".data)]⟩
    none "1.2.3".data rfl (by decide) rfl

/-- C7: requesting a version that is not a key of the registry's version
map fails with a `ValueError` whose message reads `"Version {v} not
found. Available versions: [...]"` and contains every actually
available version; no tarball download is attempted and the target
directory is left untouched. -/
theorem c7_version_not_found (net : Net) (info : RegistryInfo) (v : Str)
    (dir0 : Option (List Str))
    (hm : net.meta = .ok info)
    (hnf : lookupStr info.versions v = none) :
    (TarkoWebUi.download_static_assets net (some v) dir0).result =
      .error (.valueError (TarkoWebUi.notFoundMsg v (info.versions.map Prod.fst))) ∧
    List.IsInfix ("Version ".data ++ v ++ " not found".data)
      (TarkoWebUi.notFoundMsg v (info.versions.map Prod.fst)) ∧
    (∀ k ∈ info.versions.map Prod.fst,
      List.IsInfix k (TarkoWebUi.notFoundMsg v (info.versions.map Prod.fst))) ∧
    Ev.fetchTarball ∉ (TarkoWebUi.download_static_assets net (some v) dir0).trace ∧
    (TarkoWebUi.download_static_assets net (some v) dir0).dir = dir0 := by
  have hres : TarkoWebUi.resolveTarget info (some v) = .ok v := rfl
  refine ⟨?_, ?_, ?_, ?_, ?_⟩
  · simp [TarkoWebUi.download_static_assets, TarkoWebUi.acquire, hm, hres, hnf, Except.map]
  · refine ⟨[], ". Available versions: ".data ++
      pyStrList (info.versions.map Prod.fst), ?_⟩
    rw [TarkoWebUi.notFoundMsg]
    rw [show (" not found. Available versions: ".data : Str)
        = " not found".data ++ ". Available versions: ".data from by decide]
    simp
  · intro k hk
    obtain ⟨s, t, hst⟩ := mem_pyStrList k (info.versions.map Prod.fst) hk
    exact ⟨("Version ".data ++ v ++ " not found. Available versions: ".data) ++ s, t,
      by rw [TarkoWebUi.notFoundMsg, ← hst]; simp⟩
  · simp [TarkoWebUi.download_static_assets, TarkoWebUi.acquire, hm, hres, hnf]
  · simp [TarkoWebUi.download_static_assets, TarkoWebUi.acquire, hm, hres, hnf]

theorem c7_witness :
    (TarkoWebUi.download_static_assets
        ⟨.ok ⟨[], [("1.0.0".data, "t".data)]⟩, fun _ => .ok []⟩
        (some "2.0.0".data) (some ["old.txt".data])).result =
      .error (.valueError (TarkoWebUi.notFoundMsg "2.0.0".data
        (([("1.0.0".data, "t".data)] : List (Str × Str)).map Prod.fst))) ∧
    List.IsInfix ("Version ".data ++ "2.0.0".data ++ " not found".data)
      (TarkoWebUi.notFoundMsg "2.0.0".data
        (([("1.0.0".data, "t".data)] : List (Str × Str)).map Prod.fst)) ∧
    (∀ k ∈ (([("1.0.0".data, "t".data)] : List (Str × Str)).map Prod.fst),
      List.IsInfix k (TarkoWebUi.notFoundMsg "2.0.0".data
        (([("1.0.0".data, "t".data)] : List (Str × Str)).map Prod.fst))) ∧
    Ev.fetchTarball ∉ (TarkoWebUi.download_static_assets
        ⟨.ok ⟨[], [("1.0.0".data, "t".data)]⟩, fun _ => .ok []⟩
        (some "2.0.0".data) (some ["old.txt".data])).trace ∧
    (TarkoWebUi.download_static_assets
        ⟨.ok ⟨[], [("1.0.0".data, "t".data)]⟩, fun _ => .ok []⟩
        (some "2.0.0".data) (some ["old.txt".data])).dir = some ["old.txt".data] :=
  c7_version_not_found
    ⟨.ok ⟨[], [("1.0.0".data, "t".data)]⟩, fun _ => .ok []⟩
    ⟨[], [("1.0.0".data, "t".data)]⟩ "2.0.0".data (some ["old.txt".data]) rfl (by decide)

/-- C9: in the auto-provisioning `tarko_web_ui.get_static_path`, every
exception raised by the automatic download attempt — whatever its
original class — is caught and re-raised as a `FileNotFoundError`
whose message embeds the original error text; no other exception class
ever escapes. -/
theorem c9_auto_errors_wrapped (net : Net) (dir0 : Option (List Str)) (staticDir : Str) :
    (∀ e, (TarkoWebUi.get_static_path net dir0 staticDir).1 = .error e →
      ∃ m, e = .fileNotFound m) ∧
    (∀ e0, TarkoWebUi.needsDownload dir0 = true →
      (TarkoWebUi.acquire net none dir0).result = .error e0 →
      (TarkoWebUi.get_static_path net dir0 staticDir).1 =
        .error (.fileNotFound (TarkoWebUi.autoFailMsg e0)) ∧
      List.IsInfix e0.msg (TarkoWebUi.autoFailMsg e0)) := by
  constructor
  · intro e h
    rw [TarkoWebUi.get_static_path] at h
    by_cases hn : TarkoWebUi.needsDownload dir0 = true
    · rw [if_pos hn] at h
      dsimp only at h
      cases ha : (TarkoWebUi.acquire net none dir0).result with
      | error e0 =>
        rw [ha] at h
        dsimp only at h
        exact ⟨TarkoWebUi.autoFailMsg e0, by simpa using h.symm⟩
      | ok u => rw [ha] at h; simp at h
    · rw [if_neg hn] at h; simp at h
  · intro e0 hn ha
    refine ⟨?_, ?_⟩
    · rw [TarkoWebUi.get_static_path, if_pos hn]
      dsimp only
      rw [ha]
    · refine ⟨"Failed to download static assets: ".data,
        ". You can try manually: python -c ".data ++ pyQuote ::
          ("from tarko_web_ui import download_static_assets; download_static_assets()".data
            ++ [pyQuote]), ?_⟩
      rw [TarkoWebUi.autoFailMsg]
      simp

theorem c9_witness :
    ((∀ e, (TarkoWebUi.get_static_path
        ⟨.error (.urlError "urlopen error: connection refused".data), fun _ => .ok []⟩
        none "/pkg/tarko_web_ui/static".data).1 = .error e → ∃ m, e = .fileNotFound m) ∧
     (∀ e0, TarkoWebUi.needsDownload (none : Option (List Str)) = true →
      (TarkoWebUi.acquire
        ⟨.error (.urlError "urlopen error: connection refused".data), fun _ => .ok []⟩
        none none).result = .error e0 →
      (TarkoWebUi.get_static_path
        ⟨.error (.urlError "urlopen error: connection refused".data), fun _ => .ok []⟩
        none "/pkg/tarko_web_ui/static".data).1 =
        .error (.fileNotFound (TarkoWebUi.autoFailMsg e0)) ∧
      List.IsInfix e0.msg (TarkoWebUi.autoFailMsg e0))) ∧
    (TarkoWebUi.get_static_path
        ⟨.error (.urlError "urlopen error: connection refused".data), fun _ => .ok []⟩
        none "/pkg/tarko_web_ui/static".data).1 =
      .error (.fileNotFound (TarkoWebUi.autoFailMsg
        (.urlError "urlopen error: connection refused".data))) :=
  ⟨c9_auto_errors_wrapped
      ⟨.error (.urlError "urlopen error: connection refused".data), fun _ => .ok []⟩
      none "/pkg/tarko_web_ui/static".data,
   ((c9_auto_errors_wrapped
      ⟨.error (.urlError "urlopen error: connection refused".data), fun _ => .ok []⟩
      none "/pkg/tarko_web_ui/static".data).2
      (.urlError "urlopen error: connection refused".data) rfl rfl).1⟩

/-- C10: the target directory is deleted and recreated only after the
registry metadata has been fetched and the requested version resolved
and found, and before the archive download: a metadata or resolution
failure leaves the prior state untouched (no `cleanDir` in the trace);
a version-not-found failure likewise; a tarball failure leaves the
directory existing but empty with the prior contents not restored; on
success the events run in the order fetchMeta, cleanDir, fetchTarball,
extracted. -/
theorem c10_cleanup_ordering (net : Net) (version : Option Str) (dir0 : Option (List Str)) :
    (∀ e, net.meta = .error e →
      TarkoWebUi.download_static_assets net version dir0 = ⟨.error e, dir0, []⟩) ∧
    (∀ info e, net.meta = .ok info → TarkoWebUi.resolveTarget info version = .error e →
      TarkoWebUi.download_static_assets net version dir0 = ⟨.error e, dir0, [Ev.fetchMeta]⟩) ∧
    (∀ info target, net.meta = .ok info → TarkoWebUi.resolveTarget info version = .ok target →
      lookupStr info.versions target = none →
      (TarkoWebUi.download_static_assets net version dir0).dir = dir0 ∧
      Ev.cleanDir ∉ (TarkoWebUi.download_static_assets net version dir0).trace) ∧
    (∀ info target turl e, net.meta = .ok info →
      TarkoWebUi.resolveTarget info version = .ok target →
      lookupStr info.versions target = some turl → net.tarball turl = .error e →
      TarkoWebUi.download_static_assets net version dir0 =
        ⟨.error e, some [], [Ev.fetchMeta, Ev.cleanDir, Ev.fetchTarball]⟩) ∧
    (∀ info target turl members, net.meta = .ok info →
      TarkoWebUi.resolveTarget info version = .ok target →
      lookupStr info.versions target = some turl → net.tarball turl = .ok members →
      (TarkoWebUi.download_static_assets net version dir0).trace =
        [Ev.fetchMeta, Ev.cleanDir, Ev.fetchTarball, Ev.extracted]) := by
  refine ⟨?_, ?_, ?_, ?_, ?_⟩
  · intro e hm
    simp [TarkoWebUi.download_static_assets, TarkoWebUi.acquire, hm, Except.map]
  · intro info e hm hres
    simp [TarkoWebUi.download_static_assets, TarkoWebUi.acquire, hm, hres, Except.map]
  · intro info target hm hres hnf
    constructor <;>
      simp [TarkoWebUi.download_static_assets, TarkoWebUi.acquire, hm, hres, hnf]
  · intro info target turl e hm hres hlook htar
    simp [TarkoWebUi.download_static_assets, TarkoWebUi.acquire, hm, hres, hlook, htar,
      Except.map]
  · intro info target turl members hm hres hlook htar
    simp [TarkoWebUi.download_static_assets, TarkoWebUi.acquire, hm, hres, hlook, htar]

theorem c10_witness :
    TarkoWebUi.download_static_assets
        ⟨.error (.urlError "urlopen error".data), fun _ => .ok []⟩ none
        (some ["old.txt".data]) =
      ⟨.error (.urlError "urlopen error".data), some ["old.txt".data], []⟩ ∧
    TarkoWebUi.download_static_assets
        ⟨.ok ⟨[], [("1.0.0".data, "t".data)]⟩, fun _ => .ok []⟩ none
        (some ["old.txt".data]) =
      ⟨.error (.keyError "latest".data), some ["old.txt".data], [Ev.fetchMeta]⟩ ∧
    ((TarkoWebUi.download_static_assets
        ⟨.ok ⟨[], [("1.0.0".data, "t".data)]⟩, fun _ => .ok []⟩ (some "2.0.0".data)
        (some ["old.txt".data])).dir = some ["old.txt".data] ∧
     Ev.cleanDir ∉ (TarkoWebUi.download_static_assets
        ⟨.ok ⟨[], [("1.0.0".data, "t".data)]⟩, fun _ => .ok []⟩ (some "2.0.0".data)
        (some ["old.txt".data])).trace) ∧
    TarkoWebUi.download_static_assets
        ⟨.ok ⟨[], [("1.0.0".data, "t".data)]⟩,
         fun _ => .error (.tarError "not a gzip file".data)⟩ (some "1.0.0".data)
        (some ["old.txt".data]) =
      ⟨.error (.tarError "not a gzip file".data), some [],
        [Ev.fetchMeta, Ev.cleanDir, Ev.fetchTarball]⟩ ∧
    (TarkoWebUi.download_static_assets
        ⟨.ok ⟨[], [("1.0.0".data, "t".data)]⟩,
         fun _ => .ok ["package/static/index.html".data]⟩ (some "1.0.0".data)
        (some ["old.txt".data])).trace =
      [Ev.fetchMeta, Ev.cleanDir, Ev.fetchTarball, Ev.extracted] :=
  ⟨(c10_cleanup_ordering ⟨.error (.urlError "urlopen error".data), fun _ => .ok []⟩ none
      (some ["old.txt".data])).1 (.urlError "urlopen error".data) rfl,
   (c10_cleanup_ordering ⟨.ok ⟨[], [("1.0.0".data, "t".data)]⟩, fun _ => .ok []⟩ none
      (some ["old.txt".data])).2.1 ⟨[], [("1.0.0".data, "t".data)]⟩
      (.keyError "latest".data) rfl rfl,
   (c10_cleanup_ordering ⟨.ok ⟨[], [("1.0.0".data, "t".data)]⟩, fun _ => .ok []⟩
      (some "2.0.0".data) (some ["old.txt".data])).2.2.1 ⟨[], [("1.0.0".data, "t".data)]⟩
      "2.0.0".data rfl rfl (by decide),
   (c10_cleanup_ordering
      ⟨.ok ⟨[], [("1.0.0".data, "t".data)]⟩,
       fun _ => .error (.tarError "not a gzip file".data)⟩
      (some "1.0.0".data) (some ["old.txt".data])).2.2.2.1 ⟨[], [("1.0.0".data, "t".data)]⟩
      "1.0.0".data "t".data (.tarError "not a gzip file".data) rfl rfl (by decide) rfl,
   (c10_cleanup_ordering
      ⟨.ok ⟨[], [("1.0.0".data, "t".data)]⟩,
       fun _ => .ok ["package/static/index.html".data]⟩
      (some "1.0.0".data) (some ["old.txt".data])).2.2.2.2 ⟨[], [("1.0.0".data, "t".data)]⟩
      "1.0.0".data "t".data ["package/static/index.html".data] rfl rfl (by decide) rfl⟩
